import Mathlib

/-!
Verification of the Court_Booking reservation core (src/src/booking_manager.py).

The Python code is shallowly embedded below.  Python strings are modelled as
lists of characters (Str); Python ints as Int; datetimes as a DateTime record
(CPython datetimes always satisfy DateTime.Valid: year 1..9999, valid
month/day, hour/minute/second in range).  The Google-Sheets ledger is a list
of rows (each a list of cells); reads return the stored rows, a ledger append
assigns position length + 2 (row 1 is the header, data starts at A2), and a
transport failure of an append is an explicit Option Str input (the raised
message), matching the try/except in create_booking.  float parsing
(CPython float()) is modelled with exact decimal semantics for plain decimal
literals (sign, digits, optional fractional part); this is exact for every
value within double precision and does not model inf/nan/exponent forms.
Functions from outside the repository that the engine calls
(dateutil.parser.parse, datetime.now) are explicit parameters.
-/

set_option maxHeartbeats 1000000

namespace CourtBooking

/-- Python strings, modelled as lists of characters (code points, as in
CPython). -/
abbrev Str := List Char

/-- Coerce a Lean string literal to the model string type. -/
def str (s : String) : Str := s.data

/-- A spreadsheet row: an ordered list of text cells. -/
abbrev Row := List Str

/-- The whitespace characters removed by Python str.strip() (ASCII subset). -/
def isPyWs (c : Char) : Bool :=
  c = ' ' || c = '\t' || c = '\n' || c = '\r' || c = Char.ofNat 11 || c = Char.ofNat 12

/-- Python str.strip(): drop leading and trailing whitespace. -/
def pyStrip (s : Str) : Str :=
  ((s.dropWhile isPyWs).reverse.dropWhile isPyWs).reverse

/-- Python str.lower() (ASCII letters; the embedded program only lowercases
names, compared with each other under the same map). -/
def pyLower (s : Str) : Str := s.map Char.toLower

/-- Python str.upper() (ASCII letters; emoji and digits are unchanged, as in
CPython). -/
def pyUpper (s : Str) : Str := s.map Char.toUpper

/-- Bool test: needle is a prefix of hay. -/
def prefixB : Str → Str → Bool
  | [], _ => true
  | _ :: _, [] => false
  | a :: as, b :: bs => a == b && prefixB as bs

/-- Python substring containment: needle in hay. -/
def containsSub (needle : Str) : Str → Bool
  | [] => needle.isEmpty
  | c :: rest => prefixB needle (c :: rest) || containsSub needle rest

/-- Decimal digit character for d in 0..9. -/
def digitChar (d : Nat) : Char := Char.ofNat (48 + d)

/-- Fuel-driven rendering of a natural number in base 10 (structural
recursion so that the kernel can evaluate it). -/
def natToCharsAux : Nat → Nat → Str
  | 0, _ => []
  | fuel + 1, n => if n < 10 then [digitChar n] else natToCharsAux fuel (n / 10) ++ [digitChar (n % 10)]

/-- Python str() of a nonnegative integer. -/
def natToChars (n : Nat) : Str := natToCharsAux (n + 1) n

/-- Python str() of an int. -/
def intToChars (i : Int) : Str :=
  if i < 0 then '-' :: natToChars i.natAbs else natToChars i.natAbs

/-- Numeric value of a digit character. -/
def charDigitVal (c : Char) : Nat := c.toNat - 48

/-- Accumulator fold giving the value of a digit string. -/
def charsValAux : Nat → Str → Nat
  | acc, [] => acc
  | acc, c :: cs => charsValAux (acc * 10 + charDigitVal c) cs

/-- Parse a nonempty all-digit string as a natural number (the shape accepted
by one int-like field of CPython strptime, leading zeros allowed). -/
def charsToNat (s : Str) : Option Nat :=
  if !s.isEmpty && s.all Char.isDigit then some (charsValAux 0 s) else none

/-- Left-pad a rendered natural with zeros to the given width (printf 0Nd). -/
def padNum (w n : Nat) : Str :=
  List.replicate (w - (natToChars n).length) '0' ++ natToChars n

/-- Python format spec 02d applied to an int: sign, then zero padding to an
overall width of two. -/
def fmt02 (i : Int) : Str :=
  let core := natToChars i.natAbs
  let signLen : Nat := if i < 0 then 1 else 0
  (if i < 0 then ['-'] else []) ++ List.replicate (2 - (signLen + core.length)) '0' ++ core

/-- Split a string on a separator character (like Python str.split(sep)). -/
def splitOnChar (sep : Char) : Str → List Str
  | [] => [[]]
  | c :: cs =>
    let r := splitOnChar sep cs
    if c = sep then [] :: r
    else
      match r with
      | [] => [[c]]
      | t :: ts => (c :: t) :: ts

/-- A CPython naive datetime (microseconds are never used by the program). -/
structure DateTime where
  year : Nat
  month : Nat
  day : Nat
  hour : Nat
  minute : Nat
  second : Nat
deriving DecidableEq

/-- Gregorian leap-year rule, as used by CPython datetime. -/
def isLeapYear (y : Nat) : Bool := (y % 4 = 0 && y % 100 ≠ 0) || y % 400 = 0

/-- Days in a month, as validated by the CPython datetime constructor. -/
def daysInMonth (y m : Nat) : Nat :=
  if m = 2 then (if isLeapYear y then 29 else 28)
  else if m = 4 || m = 6 || m = 9 || m = 11 then 30 else 31

/-- The values representable as a CPython datetime; every datetime object the
Python program can hold satisfies this. -/
def DateTime.Valid (d : DateTime) : Prop :=
  1 ≤ d.year ∧ d.year ≤ 9999 ∧ 1 ≤ d.month ∧ d.month ≤ 12 ∧
  1 ≤ d.day ∧ d.day ≤ daysInMonth d.year d.month ∧
  d.hour ≤ 23 ∧ d.minute ≤ 59 ∧ d.second ≤ 59

instance (d : DateTime) : Decidable d.Valid := by
  unfold DateTime.Valid; infer_instance

/-- Python datetime.date(): the calendar-day projection used for matching. -/
def DateTime.dateTriple (d : DateTime) : Nat × Nat × Nat := (d.year, d.month, d.day)

/-- Python date comparison a < b (lexicographic on year, month, day). -/
def dateTripleLt (a b : Nat × Nat × Nat) : Bool :=
  a.1 < b.1 || (a.1 = b.1 && (a.2.1 < b.2.1 || (a.2.1 = b.2.1 && a.2.2 < b.2.2)))

/-- A numeric field of a strptime pattern: one or two digit characters whose
value lies in lo..hi (the regexes CPython builds for the directives used
here, e.g. for the month 1[0-2] or 0[1-9] or [1-9], accept exactly the one-
or two-digit strings with an in-range value). -/
def parseField2 (lo hi : Nat) (s : Str) : Option Nat :=
  if 1 ≤ s.length && s.length ≤ 2 then
    match charsToNat s with
    | some v => if lo ≤ v && v ≤ hi then some v else none
    | none => none
  else none

/-- CPython strptime with format Y-m-d: a four-digit year, dashes, one- or
two-digit month and day, the whole string consumed, then the datetime
constructor validates day against month length and rejects year 0. -/
def parseDate (s : Str) : Option DateTime :=
  match splitOnChar '-' s with
  | [y, m, d] =>
    if y.length = 4 then
      match charsToNat y, parseField2 1 12 m, parseField2 1 31 d with
      | some yv, some mv, some dv =>
        if 1 ≤ yv && dv ≤ daysInMonth yv mv then
          some ⟨yv, mv, dv, 0, 0, 0⟩
        else none
      | _, _, _ => none
    else none
  | _ => none

/-- The H:M:S part of the timestamp format. -/
def parseHMS (s : Str) : Option (Nat × Nat × Nat) :=
  match splitOnChar ':' s with
  | [h, m, sec] =>
    match parseField2 0 23 h, parseField2 0 59 m, parseField2 0 59 sec with
    | some hv, some mv, some sv => some (hv, mv, sv)
    | _, _, _ => none
  | _ => none

/-- CPython strptime with format Y-m-d H:M:S.  The single literal space in
the format is modelled as exactly one space (CPython would also accept any
whitespace run there; the program only ever stores the canonical form). -/
def parseDateTime (s : Str) : Option DateTime :=
  match splitOnChar ' ' s with
  | [dpart, tpart] =>
    match parseDate dpart, parseHMS tpart with
    | some d, some (hv, mv, sv) => some ⟨d.year, d.month, d.day, hv, mv, sv⟩
    | _, _ => none
  | _ => none

/-- Python strftime Y-m-d (zero padding; CPython pads the year to four digits
for the years representable in a datetime that matter here). -/
def formatDate (d : DateTime) : Str :=
  padNum 4 d.year ++ ('-' :: (padNum 2 d.month ++ ('-' :: padNum 2 d.day)))

/-- Python strftime Y-m-d H:M:S. -/
def formatDateTime (d : DateTime) : Str :=
  formatDate d ++
    (' ' :: (padNum 2 d.hour ++ (':' :: (padNum 2 d.minute ++ (':' :: padNum 2 d.second)))))

/-- An exact decimal value num / 10 ^ exp, the result of parsing a plain
decimal literal. -/
structure Dec where
  num : Int
  exp : Nat
deriving DecidableEq

/-- CPython float() on a plain decimal literal: optional surrounding
whitespace, optional sign, digits with an optional fractional part (at least
one digit overall).  Exact decimal semantics; inf/nan/exponent spellings are
outside the model. -/
def pySign : Str → Int
  | '-' :: _ => -1
  | _ => 1

def pyUnsigned : Str → Str
  | '+' :: r => r
  | '-' :: r => r
  | r => r

def pyFloatChars (s : Str) : Option Dec :=
  let t := pyStrip s
  match splitOnChar '.' (pyUnsigned t) with
  | [ipart] =>
    if !ipart.isEmpty && ipart.all Char.isDigit then
      some ⟨pySign t * (charsValAux 0 ipart : Nat), 0⟩
    else none
  | [ipart, fpart] =>
    if (ipart.all Char.isDigit && fpart.all Char.isDigit) && !(ipart.isEmpty && fpart.isEmpty) then
      some ⟨pySign t * (charsValAux 0 (ipart ++ fpart) : Nat), fpart.length⟩
    else none
  | _ => none

/-- Python int(float(s)): parse as a float, then truncate toward zero. -/
def pyIntFloat (s : Str) : Option Int :=
  (pyFloatChars s).map (fun d => Int.tdiv d.num ((10 : Int) ^ d.exp))

/-- The dataclass Booking of booking_manager.py. -/
structure Booking where
  date : DateTime
  time_slot : Str
  court : Int
  customer_name : Str
  phone : Str
  email : Str
  status : Str := str "🔴 Booked"
  created_at : Option DateTime := none
  notes : Str := []
deriving DecidableEq

/-- Booking.to_row.  created_at or datetime.now(): a datetime is always
truthy in Python, so the current time is used exactly when created_at is
None; now is that external clock value. -/
def Booking.toRow (now : DateTime) (b : Booking) : Row :=
  [formatDate b.date, b.time_slot, intToChars b.court, b.customer_name, b.phone,
   b.email, b.status, formatDateTime (b.created_at.getD now), b.notes]

/-- The created_at component of Booking.from_row: parsed only when a
seventh trailing cell exists; a parse failure raises and fails the whole
from_row (outer some none = absent field, none = raised exception). -/
def fromRowCreatedAt (rest : List Str) : Option (Option DateTime) :=
  match rest.get? 3 with
  | some ca =>
    match parseDateTime (pyStrip ca) with
    | some v => some (some v)
    | none => none
  | none => some none

/-- Booking.from_row.  Indexing row[0..3] on a shorter row raises
(IndexError), as do an unparseable date, court or created_at; every raise is
the none result (the caller catches and skips).  Missing trailing fields
default as in the dataclass call. -/
def Booking.fromRow (row : Row) : Option Booking :=
  match row with
  | d :: t :: c :: nm :: rest =>
    match parseDate (pyStrip d), pyIntFloat c, fromRowCreatedAt rest with
    | some dv, some cv, some caOpt =>
      some { date := dv
             time_slot := pyStrip t
             court := cv
             customer_name := pyStrip nm
             phone := match rest.get? 0 with | some p => pyStrip p | none => str "N/A"
             email := match rest.get? 1 with | some e => pyStrip e | none => str "N/A"
             status := match rest.get? 2 with | some st => pyStrip st | none => str "🔴 Booked"
             created_at := caOpt
             notes := match rest.get? 4 with | some nt => pyStrip nt | none => [] }
    | _, _, _ => none
  | _ => none

/-- The booking obtained by parsing back a serialized booking: the date is
truncated to its calendar day, the text fields are stripped, and the
created_at slot is filled (with the clock value when it was absent). -/
def roundTripped (b : Booking) (now : DateTime) : Booking :=
  { date := ⟨b.date.year, b.date.month, b.date.day, 0, 0, 0⟩
    time_slot := pyStrip b.time_slot
    court := b.court
    customer_name := pyStrip b.customer_name
    phone := pyStrip b.phone
    email := pyStrip b.email
    status := pyStrip b.status
    created_at := some (b.created_at.getD now)
    notes := pyStrip b.notes }

/-- The manager-visible state: the persistent Bookings ledger rows (A2:I),
the in-memory cache _cached_bookings, and the request-queue rows (A2:I). -/
structure MState where
  bookings : List Row
  cache : List Booking
  requests : List Row
deriving DecidableEq

/-- First cell of a row (empty string when the row is empty). -/
def firstCell (r : Row) : Str :=
  match r with
  | [] => []
  | c :: _ => c

/-- The guard of refresh_cache: len(row) >= 4 and row[0] truthy. -/
def guardRow (r : Row) : Bool := decide (4 ≤ r.length) && !(firstCell r).isEmpty

/-- BookingManager.refresh_cache: rebuild the cache wholesale from the
ledger rows, skipping guarded-out rows and rows whose from_row raises. -/
def refreshCache (ledger : List Row) : List Booking :=
  ledger.filterMap (fun r => if guardRow r then Booking.fromRow r else none)

/-- The word whose substring presence marks a reservation as booked. -/
def bookedWord : Str := str "Booked"

/-- Status slot of one cached booking against a slot key, as tested by
check_availability and by the duplicate-detection predicate. -/
def slotMatch (b : Booking) (dt : Nat × Nat × Nat) (t : Str) (c : Int) : Bool :=
  decide (b.date.dateTriple = dt) && decide (b.time_slot = t) && decide (b.court = c) &&
    containsSub bookedWord b.status

/-- BookingManager.check_availability: true iff no cached booking with a
Booked status matches the calendar day, the exact time-slot string and the
court. -/
def checkAvailability (cache : List Booking) (date : DateTime) (t : Str) (c : Int) : Bool :=
  cache.all (fun b => !slotMatch b date.dateTriple t c)

/-- BookingManager.create_booking.  appendFail carries the message of a
raised transport error of the ledger append (None: the append succeeded and
the client reports the assigned sheet row, ledger length + 2 since data
starts at row 2). -/
def createBooking (s : MState) (b : Booking) (appendFail : Option Str) (now : DateTime) :
    MState × (Bool × Str × Option Nat) :=
  if !(checkAvailability s.cache b.date b.time_slot b.court) then
    (s, (false, str "ALREADY RESERVED", none))
  else
    match appendFail with
    | some e => (s, (false, str "DB ERROR: " ++ e, none))
    | none =>
      ({ s with bookings := s.bookings ++ [b.toRow now], cache := s.cache ++ [b] },
       (true, str "BOOKED", some (s.bookings.length + 2)))

/-- Replace cell colIdx of a row, padding with empty cells when the row is
shorter (writing a cell of a sheet row always succeeds). -/
def setCellPad (r : Row) (colIdx : Nat) (v : Str) : Row :=
  if colIdx < r.length then r.set colIdx v
  else r ++ List.replicate (colIdx - r.length) [] ++ [v]

/-- update_cell against a block of rows starting at sheet row 2: sheet row
li + 2, column colIdx + 1. -/
def updateRowsCell (rows : List Row) (li colIdx : Nat) (v : Str) : List Row :=
  rows.set li (setCellPad (rows.getD li []) colIdx v)

/-- The match predicate of the cancel_booking scan (court passes through
int(float(.)), the identity on every int the program handles). -/
def cancelMatch (b : Booking) (dt : Nat × Nat × Nat) (t : Str) (c : Int) (n : Str) : Bool :=
  decide (b.date.dateTriple = dt) && decide (b.time_slot = t) && decide (b.court = c) &&
    decide (pyStrip (pyLower b.customer_name) = n) && containsSub bookedWord b.status

/-- Index of the first cached booking matching the cancel key, if any. -/
def findCancelIdx (dt : Nat × Nat × Nat) (t : Str) (c : Int) (n : Str) :
    List Booking → Nat → Option Nat
  | [], _ => none
  | b :: bs, i => if cancelMatch b dt t c n then some i else findCancelIdx dt t c n bs (i + 1)

/-- BookingManager.cancel_booking: refresh the cache, scan it for a Booked
match on day, stripped time-slot, court and case-insensitive stripped name;
on a match at cache index i flip the persisted status cell G(i+2) to
Cancelled (the cached Booking object itself is not touched). -/
def cancelBooking (s : MState) (date : DateTime) (timeSlot : Str) (court : Int) (name : Str) :
    MState × (Bool × Str) :=
  let cache := refreshCache s.bookings
  let targetName := pyStrip (pyLower name)
  match findCancelIdx date.dateTriple (pyStrip timeSlot) court targetName cache 0 with
  | some i =>
    ({ bookings := updateRowsCell s.bookings i 6 (str "⚪ Cancelled"),
       cache := cache, requests := s.requests },
     (true, str "RELEASED"))
  | none => ({ s with cache := cache }, (false, str "BOOKING NOT FOUND"))

/-- Cell i of a row; as in a sheet read, an absent cell reads as empty. -/
def cellAt (r : Row) (i : Nat) : Str := r.getD i []

/-- A row the request loop skips outright: not row or not row[0]. -/
def rowBlank (r : Row) : Bool :=
  match r with
  | [] => true
  | c :: _ => c.isEmpty

/-- The time parsing of process_requests (lines 176-184): a value with a
colon is taken as-is; otherwise float(raw) * 24 truncated and rendered 02d
with a :00 suffix; if the float conversion raises ValueError the raw text
itself gets the :00 suffix. -/
def parseTimeStr (rawTime : Str) : Str :=
  if !containsSub (str ":") rawTime then
    match pyFloatChars rawTime with
    | some d => fmt02 (Int.tdiv (24 * d.num) ((10 : Int) ^ d.exp)) ++ str ":00"
    | none => rawTime ++ str ":00"
  else rawTime

/-- External inputs of one reconciliation pass: the general date-text parser
used as fallback (dateutil.parser.parse, a library outside the repository:
none models a raise), the transport outcome of the ledger append attempted
for row i (createBooking semantics), and the clock. -/
structure ProcEnv where
  fallback : Str → Option DateTime
  appendFail : Nat → Option Str
  now : DateTime

/-- Write the outcome marker of request row i (sheet row i+2, column 9). -/
def writeMarker (s : MState) (i : Nat) (v : Str) : MState :=
  { s with requests := updateRowsCell s.requests i 8 v }

/-- The body of the process_requests loop for the row at snapshot index i.
Returns the new state and whether the row counted as a success. -/
def processRow (env : ProcEnv) (s : MState) (i : Nat) (row : Row) : MState × Bool :=
  if rowBlank row then (s, false)
  else
    let action := pyUpper (cellAt row 0)
    let status := if 9 ≤ row.length then cellAt row 8 else []
    if containsSub (str "✅") status then (s, false)
    else if row.length < 5 || (pyStrip (cellAt row 4)).isEmpty then
      (writeMarker s i (str "❌ MISSING NAME"), false)
    else
      let rawDate := pyStrip (cellAt row 1)
      let rawTime := pyStrip (cellAt row 2)
      let rawCourt := pyStrip (cellAt row 3)
      let nameAttr := pyStrip (cellAt row 4)
      match (match parseDate rawDate with
             | some d => some d
             | none => env.fallback rawDate) with
      | none => (writeMarker s i (str "❌ DATA ERROR"), false)
      | some dateObj =>
        let timeStr := parseTimeStr rawTime
        match pyIntFloat rawCourt with
        | none => (writeMarker s i (str "❌ DATA ERROR"), false)
        | some courtNum =>
          if containsSub (str "BOOK") action || containsSub (str "🆕") action then
            let nb : Booking :=
              { date := dateObj, time_slot := timeStr, court := courtNum,
                customer_name := nameAttr,
                phone := if 5 < row.length then cellAt row 5 else str "N/A",
                email := if 6 < row.length then cellAt row 6 else str "N/A",
                notes := if 7 < row.length then cellAt row 7 else [] }
            let res := createBooking s nb (env.appendFail i) env.now
            let succ := res.2.1
            let final := if succ then str "✅ BOOKED" else str "❌ " ++ res.2.2.1
            (writeMarker res.1 i final, succ)
          else if containsSub (str "CANCEL") action || containsSub (str "🚫") action then
            let res := cancelBooking s dateObj timeStr courtNum nameAttr
            let succ := res.2.1
            let final := if succ then str "✅ CANCELLED" else str "❌ " ++ res.2.2
            (writeMarker res.1 i final, succ)
          else
            (writeMarker s i (str "❌ UNKNOWN ACTION"), false)

/-- Fold of processRow over the snapshot of the queue, threading the state
and the success count. -/
def processAux (env : ProcEnv) : List Row → Nat → MState → Nat → MState × Nat
  | [], _, s, cnt => (s, cnt)
  | r :: rs, i, s, cnt =>
    let step := processRow env s i r
    processAux env rs (i + 1) step.1 (cnt + (if step.2 then 1 else 0))

/-- BookingManager.process_requests: iterate over the rows read once from
the requests sheet, writing markers back row by row; returns the success
count. -/
def processRequests (env : ProcEnv) (s : MState) : MState × Nat :=
  if s.requests.isEmpty then (s, 0) else processAux env s.requests 0 s 0

/-- Phase-1 partition of archive_old_data over the request-queue rows:
blank rows fall out entirely; a failed date parse counts as today; a row is
archived iff its date is strictly past (the disjunct with the success marker
is kept as written). -/
def partitionRequestRows (today : Nat × Nat × Nat) : List Row → List Row × List Row
  | [] => ([], [])
  | row :: rest =>
    let p := partitionRequestRows today rest
    if rowBlank row then p
    else
      let status := if 9 ≤ row.length then cellAt row 8 else []
      let reqDate := match parseDate (pyStrip (cellAt row 1)) with
        | some d => d.dateTriple
        | none => today
      let isPast := dateTripleLt reqDate today
      let isSuccess := containsSub (str "✅") status
      if isPast || (isSuccess && isPast) then (row :: p.1, p.2) else (p.1, row :: p.2)

/-- Phase-2 partition of archive_old_data over the ledger rows: blank rows
fall out; a row is archived iff its (first-cell) date is strictly past. -/
def partitionLedgerRows (today : Nat × Nat × Nat) : List Row → List Row × List Row
  | [] => ([], [])
  | row :: rest =>
    let p := partitionLedgerRows today rest
    if rowBlank row then p
    else
      let bDate := match parseDate (pyStrip (cellAt row 0)) with
        | some d => d.dateTriple
        | none => today
      if dateTripleLt bDate today then (row :: p.1, p.2) else (p.1, row :: p.2)

/-- One external call against the manager, with its external inputs:
create_booking carries the transport outcome of its append and the clock,
cancel_booking carries its arguments. -/
inductive Op where
  | create (b : Booking) (appendFail : Option Str) (now : DateTime)
  | cancel (date : DateTime) (timeSlot : Str) (court : Int) (name : Str)

/-- Apply one call to the state. -/
def applyOp (s : MState) : Op → MState
  | .create b fail now => (createBooking s b fail now).1
  | .cancel d t c n => (cancelBooking s d t c n).1

/-- Run a call sequence. -/
def runOps (s : MState) : List Op → MState
  | [] => s
  | op :: ops => runOps (applyOp s op) ops

/-- The start state: empty cache, empty ledger. -/
def initMState : MState := ⟨[], [], []⟩

/-- No two Booked cache entries share a (date, time_slot, court) key. -/
def noDupBooked : List Booking → Bool
  | [] => true
  | b :: rest =>
    rest.all (fun b2 => !(containsSub bookedWord b.status &&
      slotMatch b2 b.date.dateTriple b.time_slot b.court)) && noDupBooked rest

/-- Validity of an optional created_at stamp (absent is fine). -/
def caValid : Option DateTime → Prop
  | some ca => ca.Valid
  | none => True

instance : (o : Option DateTime) → Decidable (caValid o)
  | some ca => (inferInstance : Decidable ca.Valid)
  | none => isTrue trivial

/-- Side conditions under which an external call is one the Python program
can actually receive: datetimes are CPython-representable, the created
booking's time-slot string carries no surrounding whitespace, and the court
id is within exact double precision (so int(float(str(court))) is the
identity). -/
def opOK : Op → Prop
  | .create b _ now =>
    pyStrip b.time_slot = b.time_slot ∧ b.date.Valid ∧ now.Valid ∧
    caValid b.created_at ∧ b.court.natAbs ≤ 2 ^ 53
  | .cancel _ _ _ _ => True

instance : (op : Op) → Decidable (opOK op)
  | .create b _ now =>
    (inferInstance : Decidable (pyStrip b.time_slot = b.time_slot ∧ b.date.Valid ∧
      now.Valid ∧ caValid b.created_at ∧ b.court.natAbs ≤ 2 ^ 53))
  | .cancel _ _ _ _ => isTrue trivial

/-- The slot key of a booking: calendar day, exact time-slot string, court. -/
def keyOf (b : Booking) : (Nat × Nat × Nat) × Str × Int :=
  (b.date.dateTriple, b.time_slot, b.court)

/-- Whether a booking counts as booked (substring test on the status). -/
def isBooked (b : Booking) : Bool := containsSub bookedWord b.status

/-- Some booked entry of the list carries the given slot key. -/
def bookedKeyIn (l : List Booking) (k : (Nat × Nat × Nat) × Str × Int) : Prop :=
  ∃ b ∈ l, isBooked b = true ∧ keyOf b = k

/-- A ledger row as created by the program itself: nine cells, nonempty
first cell, and from_row accepts it. -/
def goodRow (r : Row) : Prop :=
  r.length = 9 ∧ (firstCell r).isEmpty = false ∧ (Booking.fromRow r).isSome = true

/-- The inductive invariant of the create/cancel system: every ledger row is
well formed, the cache and the parsed ledger are duplicate-free, and every
booked key of the parsed ledger is booked in the cache. -/
def InvState (s : MState) : Prop :=
  (∀ r ∈ s.bookings, goodRow r) ∧ noDupBooked s.cache = true ∧
  noDupBooked (refreshCache s.bookings) = true ∧
  (∀ k, bookedKeyIn (refreshCache s.bookings) k → bookedKeyIn s.cache k)

/-! Concrete inputs used to check the claims on executable runs. -/

/-- A fixed clock value for concrete runs. -/
def dNow : DateTime := ⟨2024, 1, 1, 0, 0, 0⟩

/-- A concrete booking. -/
def bAlice : Booking :=
  { date := ⟨2024, 6, 1, 0, 0, 0⟩
    time_slot := str "10:00"
    court := 2
    customer_name := str "Alice"
    phone := str "555"
    email := str "a@x"
    created_at := some ⟨2024, 5, 1, 8, 0, 0⟩ }

/-- The sequence refuting the unrestricted uniqueness claim: the first create
carries a time-slot with a leading space, the second the stripped spelling of
the same slot; a later cancel rebuilds the cache from the ledger, where both
serialized rows parse to the same slot key. -/
def c1Ops : List Op :=
  [Op.create { bAlice with time_slot := str " 10:00", court := 1 } none dNow,
   Op.create { bAlice with customer_name := str "Bob", court := 1 } none dNow,
   Op.cancel ⟨2024, 6, 2, 0, 0, 0⟩ (str "x") 1 (str "nobody")]

/-- A sequence of calls with canonical inputs. -/
def c1OkOps : List Op :=
  [Op.create bAlice none dNow,
   Op.cancel ⟨2024, 6, 1, 5, 0, 0⟩ (str "10:00") 2 (str " ALICE ")]

/-- The state holding the one booking of bAlice. -/
def sAlice : MState := (createBooking initMState bAlice none dNow).1

/-- A nine-cell ledger row: parseable ISO date, court spelled 3.0
(integer-valued floating text), all cells present. -/
def c5Row : Row :=
  [str "2024-06-01", str "10:00", str "3.0", str "Alice", str "p", str "e",
   str "🔴 Booked", str "2024-06-01 09:00:00", str "n"]

/-- The same row with the court in canonical integer spelling. -/
def c5CanonRow : Row :=
  [str "2024-06-01", str "10:00", str "3", str "Alice", str "p", str "e",
   str "🔴 Booked", str "2024-06-01 09:00:00", str "n"]

/-- A pass environment with a reliable client, no usable date fallback and a
fixed clock. -/
def envNone : ProcEnv :=
  { fallback := fun _ => none, appendFail := fun _ => none, now := dNow }

/-- A state whose single request row asks to cancel the ledger's Alice
booking but already carries the success marker of an earlier book replay. -/
def c2State : MState :=
  { bookings := [bAlice.toRow dNow]
    cache := []
    requests := [[str "🚫 CANCEL", str "2024-06-01", str "10:00", str "2", str "Alice",
      [], [], [], str "✅ BOOKED"]] }

/-- A state whose request queue has a fully empty row before a live one. -/
def c10State : MState :=
  { bookings := []
    cache := []
    requests := [[], [str "🆕 BOOK", str "2024-06-01", str "9", str "1", str "Dan"]] }

/-! Lemmas: substring containment. -/

theorem prefixB_iff (n h : Str) : prefixB n h = true ↔ ∃ t, h = n ++ t := by
  induction n generalizing h with
  | nil => simp [prefixB]
  | cons a as ih =>
    cases h with
    | nil => simp [prefixB]
    | cons b bs =>
      simp only [prefixB, Bool.and_eq_true, beq_iff_eq, ih, List.cons_append, List.cons.injEq]
      constructor
      · rintro ⟨rfl, t, rfl⟩; exact ⟨t, rfl, rfl⟩
      · rintro ⟨t, rfl, rfl⟩; exact ⟨rfl, t, rfl⟩

theorem containsSub_iff (n h : Str) : containsSub n h = true ↔ ∃ a t, h = a ++ n ++ t := by
  induction h with
  | nil =>
    constructor
    · intro hn
      refine ⟨[], [], ?_⟩
      have : n = [] := by simpa [containsSub, List.isEmpty_iff] using hn
      simp [this]
    · rintro ⟨a, t, heq⟩
      have h1 := heq.symm
      rw [List.append_assoc] at h1
      rcases List.append_eq_nil.mp h1 with ⟨rfl, h2⟩
      rcases List.append_eq_nil.mp h2 with ⟨rfl, rfl⟩
      simp [containsSub]
  | cons c cs ih =>
    simp only [containsSub, Bool.or_eq_true, prefixB_iff, ih]
    constructor
    · rintro (⟨t, heq⟩ | ⟨a, t, rfl⟩)
      · exact ⟨[], t, by simpa using heq⟩
      · exact ⟨c :: a, t, rfl⟩
    · rintro ⟨a, t, heq⟩
      cases a with
      | nil => exact Or.inl ⟨t, by simpa using heq⟩
      | cons x xs =>
        rw [List.cons_append, List.cons_append] at heq
        injection heq with h1 h2
        exact Or.inr ⟨xs, t, h2⟩

theorem containsSub_reverse (n h : Str) :
    containsSub n.reverse h.reverse = containsSub n h := by
  by_cases hc : containsSub n h = true
  · rcases (containsSub_iff n h).mp hc with ⟨a, t, rfl⟩
    rw [hc]
    apply (containsSub_iff _ _).mpr
    exact ⟨t.reverse, a.reverse, by simp⟩
  · rw [Bool.not_eq_true] at hc
    rw [hc]
    apply Bool.not_eq_true _ |>.mp
    intro hcontra
    rcases (containsSub_iff _ _).mp hcontra with ⟨a, t, heq⟩
    have : h = t.reverse ++ n ++ a.reverse := by
      have := congrArg List.reverse heq
      simpa [List.append_assoc] using this
    have : containsSub n h = true := (containsSub_iff n h).mpr ⟨t.reverse, a.reverse, this⟩
    simp [this] at hc

theorem containsSub_dropWhile (c0 : Char) (m h : Str) (hws : isPyWs c0 = false) :
    containsSub (c0 :: m) (h.dropWhile isPyWs) = containsSub (c0 :: m) h := by
  induction h with
  | nil => rfl
  | cons c cs ih =>
    by_cases hc : isPyWs c = true
    · have hne : (c0 == c) = false := by
        rw [beq_eq_false_iff_ne]
        intro heq
        rw [heq, hc] at hws
        exact Bool.noConfusion hws
      have hpre : prefixB (c0 :: m) (c :: cs) = false := by
        simp [prefixB, hne]
      have hrhs : containsSub (c0 :: m) (c :: cs) = containsSub (c0 :: m) cs := by
        show (prefixB (c0 :: m) (c :: cs) || containsSub (c0 :: m) cs) = _
        rw [hpre, Bool.false_or]
      rw [List.dropWhile_cons, if_pos hc, ih, hrhs]
    · rw [List.dropWhile_cons, if_neg hc]

theorem containsSub_booked_pyStrip (s : Str) :
    containsSub bookedWord (pyStrip s) = containsSub bookedWord s := by
  have hbw : bookedWord = 'B' :: str "ooked" := by decide
  have hbwrev : bookedWord.reverse = 'd' :: str "ekooB" := by decide
  unfold pyStrip
  have step1 : containsSub bookedWord (((s.dropWhile isPyWs).reverse.dropWhile isPyWs).reverse)
      = containsSub bookedWord.reverse ((s.dropWhile isPyWs).reverse.dropWhile isPyWs) := by
    conv_rhs =>
      rw [show (s.dropWhile isPyWs).reverse.dropWhile isPyWs
        = (((s.dropWhile isPyWs).reverse.dropWhile isPyWs).reverse).reverse from
          (List.reverse_reverse _).symm]
    rw [containsSub_reverse]
  rw [step1, hbwrev, containsSub_dropWhile _ _ _ (by decide), ← hbwrev,
    containsSub_reverse, hbw, containsSub_dropWhile _ _ _ (by decide), ← hbw]

theorem dropWhile_eq_self_of_all {p : Char → Bool} {s : Str} (h : ∀ c ∈ s, p c = false) :
    s.dropWhile p = s := by
  cases s with
  | nil => rfl
  | cons c cs =>
    rw [List.dropWhile_cons, if_neg (by simp [h c (List.mem_cons_self c cs)])]

theorem pyStrip_of_no_ws {s : Str} (h : ∀ c ∈ s, isPyWs c = false) : pyStrip s = s := by
  unfold pyStrip
  rw [dropWhile_eq_self_of_all h,
    dropWhile_eq_self_of_all (fun c hc => h c (List.mem_reverse.mp hc)),
    List.reverse_reverse]

/-! Lemmas: decimal rendering and parsing. -/

theorem charsValAux_nil (acc : Nat) : charsValAux acc [] = acc := rfl

theorem charsValAux_cons (acc : Nat) (c : Char) (cs : Str) :
    charsValAux acc (c :: cs) = charsValAux (acc * 10 + charDigitVal c) cs := rfl

theorem natToCharsAux_mem {fuel n : Nat} {c : Char} (h : c ∈ natToCharsAux fuel n) :
    ∃ d, d < 10 ∧ c = digitChar d := by
  induction fuel generalizing n with
  | zero => simp [natToCharsAux] at h
  | succ f ih =>
    rw [natToCharsAux] at h
    by_cases hn : n < 10
    · rw [if_pos hn] at h
      simp at h
      exact ⟨n, hn, h⟩
    · rw [if_neg hn] at h
      rcases List.mem_append.mp h with h1 | h2
      · exact ih h1
      · simp at h2
        exact ⟨n % 10, Nat.mod_lt n (by omega), h2⟩

theorem natToCharsAux_ne_nil {fuel n : Nat} (h : 0 < fuel) : natToCharsAux fuel n ≠ [] := by
  cases fuel with
  | zero => omega
  | succ f =>
    rw [natToCharsAux]
    by_cases hn : n < 10
    · rw [if_pos hn]; simp
    · rw [if_neg hn]; simp

theorem charsValAux_append (acc : Nat) (xs ys : Str) :
    charsValAux acc (xs ++ ys) = charsValAux (charsValAux acc xs) ys := by
  induction xs generalizing acc with
  | nil => rfl
  | cons c cs ih =>
    rw [List.cons_append, charsValAux_cons, charsValAux_cons]
    exact ih _

theorem digitChar_val : ∀ d, d < 10 → charDigitVal (digitChar d) = d := by decide

theorem digitChar_isDigit : ∀ d, d < 10 → (digitChar d).isDigit = true := by decide

theorem digitChar_ne : ∀ d, d < 10 → digitChar d ≠ '-' ∧ digitChar d ≠ ':' ∧
    digitChar d ≠ '.' ∧ digitChar d ≠ ' ' ∧ digitChar d ≠ '+' ∧
    isPyWs (digitChar d) = false := by decide

theorem natToCharsAux_val (fuel : Nat) : ∀ n acc, n < fuel →
    charsValAux acc (natToCharsAux fuel n) = acc * 10 ^ (natToCharsAux fuel n).length + n := by
  induction fuel with
  | zero => intro n acc h; omega
  | succ f ih =>
    intro n acc h
    rw [natToCharsAux]
    by_cases hn : n < 10
    · rw [if_pos hn]
      rw [charsValAux_cons, charsValAux_nil, digitChar_val n hn, List.length_singleton, pow_one]
    · rw [if_neg hn]
      have h1 : n / 10 < n := Nat.div_lt_self (by omega) (by omega)
      have hdiv : n / 10 < f := by omega
      rw [charsValAux_append, ih (n / 10) acc hdiv, List.length_append]
      rw [charsValAux_cons, charsValAux_nil, digitChar_val (n % 10) (Nat.mod_lt n (by omega))]
      rw [List.length_singleton, pow_succ]
      have hexp : 0 < 10 ^ (natToCharsAux f (n / 10)).length := Nat.pos_pow_of_pos _ (by omega)
      calc (acc * 10 ^ (natToCharsAux f (n / 10)).length + n / 10) * 10 + n % 10
          = acc * (10 ^ (natToCharsAux f (n / 10)).length * 10) + (n / 10 * 10 + n % 10) := by
            ring
        _ = acc * (10 ^ (natToCharsAux f (n / 10)).length * 10) + n := by omega

theorem natToChars_ne_nil (n : Nat) : natToChars n ≠ [] :=
  natToCharsAux_ne_nil (Nat.succ_pos n)

theorem natToChars_mem {n : Nat} {c : Char} (h : c ∈ natToChars n) :
    ∃ d, d < 10 ∧ c = digitChar d := natToCharsAux_mem h

theorem natToChars_all_digits (n : Nat) : (natToChars n).all Char.isDigit = true := by
  rw [List.all_eq_true]
  intro c hc
  rcases natToChars_mem hc with ⟨d, hd, rfl⟩
  exact digitChar_isDigit d hd

theorem charsValAux_natToChars (n : Nat) :
    charsValAux 0 (natToChars n) = n := by
  have := natToCharsAux_val (n + 1) n 0 (Nat.lt_succ_self n)
  simpa using this

theorem charsToNat_natToChars (n : Nat) : charsToNat (natToChars n) = some n := by
  unfold charsToNat
  rw [if_pos, charsValAux_natToChars]
  rw [Bool.and_eq_true, natToChars_all_digits]
  refine ⟨?_, rfl⟩
  simp [List.isEmpty_iff, natToChars_ne_nil n]

theorem charsValAux_replicate_zero (k : Nat) : ∀ acc,
    charsValAux acc (List.replicate k '0') = acc * 10 ^ k := by
  induction k with
  | zero =>
    intro acc
    rw [show List.replicate 0 '0' = ([] : Str) from rfl, charsValAux_nil, pow_zero,
      Nat.mul_one]
  | succ j ih =>
    intro acc
    rw [List.replicate_succ, charsValAux_cons, ih]
    have h0 : charDigitVal '0' = 0 := by decide
    rw [h0, pow_succ]
    ring

theorem charsToNat_padNum (w n : Nat) : charsToNat (padNum w n) = some n := by
  unfold charsToNat padNum
  rw [if_pos]
  · rw [charsValAux_append, charsValAux_replicate_zero, Nat.zero_mul, charsValAux_natToChars]
  · rw [Bool.and_eq_true]
    constructor
    · simp [List.isEmpty_iff, natToChars_ne_nil n]
    · rw [List.all_append]
      rw [Bool.and_eq_true, natToChars_all_digits]
      refine ⟨?_, rfl⟩
      rw [List.all_eq_true]
      intro c hc
      rw [List.eq_of_mem_replicate hc]
      decide

theorem padNum_length {w n : Nat} (h : (natToChars n).length ≤ w) :
    (padNum w n).length = w := by
  unfold padNum
  rw [List.length_append, List.length_replicate]
  omega

theorem padNum_mem {w n : Nat} {c : Char} (h : c ∈ padNum w n) :
    ∃ d, d < 10 ∧ c = digitChar d := by
  unfold padNum at h
  rcases List.mem_append.mp h with h1 | h2
  · exact ⟨0, by omega, by rw [List.eq_of_mem_replicate h1]; rfl⟩
  · exact natToChars_mem h2

theorem natToCharsAux_length_le : ∀ fuel n k, n < fuel → 1 ≤ k → n < 10 ^ k →
    (natToCharsAux fuel n).length ≤ k := by
  intro fuel
  induction fuel with
  | zero => intro n k h; omega
  | succ f ih =>
    intro n k hfuel hk hpow
    rw [natToCharsAux]
    by_cases hn : n < 10
    · rw [if_pos hn]
      simpa using hk
    · rw [if_neg hn]
      rw [List.length_append, List.length_singleton]
      have hk2 : 2 ≤ k := by
        by_contra hlt
        have : k = 1 := by omega
        rw [this] at hpow
        simp at hpow
        omega
      have h1 : n / 10 < n := Nat.div_lt_self (by omega) (by omega)
      have h2 : n / 10 < 10 ^ (k - 1) := by
        rw [Nat.div_lt_iff_lt_mul (by omega)]
        have : 10 ^ (k - 1) * 10 = 10 ^ k := by
          rw [← pow_succ]
          congr 1
          omega
        omega
      have := ih (n / 10) (k - 1) (by omega) (by omega) h2
      omega

theorem natToChars_length_le {n k : Nat} (hk : 1 ≤ k) (h : n < 10 ^ k) :
    (natToChars n).length ≤ k :=
  natToCharsAux_length_le (n + 1) n k (Nat.lt_succ_self n) hk h

/-! Lemmas: splitting. -/

theorem splitOnChar_of_not_mem {sep : Char} {s : Str} (h : ∀ c ∈ s, c ≠ sep) :
    splitOnChar sep s = [s] := by
  induction s with
  | nil => rfl
  | cons c cs ih =>
    simp only [splitOnChar]
    rw [ih (fun x hx => h x (List.mem_cons_of_mem c hx)),
      if_neg (h c (List.mem_cons_self c cs))]

theorem splitOnChar_append {sep : Char} {a : Str} (rest : Str) (h : ∀ c ∈ a, c ≠ sep) :
    splitOnChar sep (a ++ sep :: rest) = a :: splitOnChar sep rest := by
  induction a with
  | nil =>
    show splitOnChar sep (sep :: rest) = [] :: splitOnChar sep rest
    simp [splitOnChar]
  | cons c cs ih =>
    simp only [List.cons_append, splitOnChar, List.append_eq]
    rw [ih (fun x hx => h x (List.mem_cons_of_mem c hx)),
      if_neg (h c (List.mem_cons_self c cs))]

/-! Lemmas: date and timestamp round trips. -/

theorem padNum_not_special {w n : Nat} {c : Char} (h : c ∈ padNum w n) :
    c ≠ '-' ∧ c ≠ ':' ∧ c ≠ '.' ∧ c ≠ ' ' ∧ c ≠ '+' ∧ isPyWs c = false := by
  rcases padNum_mem h with ⟨d, hd, rfl⟩
  exact digitChar_ne d hd

theorem parseField2_padNum {lo hi v : Nat} (hv1 : lo ≤ v) (hv2 : v ≤ hi) (hhi : hi ≤ 99) :
    parseField2 lo hi (padNum 2 v) = some v := by
  unfold parseField2
  have hlen : (padNum 2 v).length = 2 := by
    apply padNum_length
    apply natToChars_length_le (by omega)
    have h100 : (10 : Nat) ^ 2 = 100 := by norm_num
    omega
  rw [hlen]
  rw [if_pos (by decide), charsToNat_padNum]
  have hcond : (decide (lo ≤ v) && decide (v ≤ hi)) = true := by
    rw [Bool.and_eq_true, decide_eq_true_eq, decide_eq_true_eq]
    exact ⟨hv1, hv2⟩
  show (if (decide (lo ≤ v) && decide (v ≤ hi)) = true then some v else none) = some v
  rw [if_pos hcond]

theorem daysInMonth_le (y m : Nat) : daysInMonth y m ≤ 31 := by
  unfold daysInMonth
  split
  · split <;> omega
  · split <;> omega

theorem parseDate_formatDate {d : DateTime} (h : d.Valid) :
    parseDate (formatDate d) = some ⟨d.year, d.month, d.day, 0, 0, 0⟩ := by
  obtain ⟨h1, h2, h3, h4, h5, h6, _, _, _⟩ := h
  unfold parseDate formatDate
  rw [splitOnChar_append _ (fun c hc => (padNum_not_special hc).1),
    splitOnChar_append _ (fun c hc => (padNum_not_special hc).1),
    splitOnChar_of_not_mem (fun c hc => (padNum_not_special hc).1)]
  have hylen : (padNum 4 d.year).length = 4 := by
    apply padNum_length
    apply natToChars_length_le (by omega)
    have hp : (10 : Nat) ^ 4 = 10000 := by norm_num
    omega
  have hycn : charsToNat (padNum 4 d.year) = some d.year := charsToNat_padNum _ _
  have hmf : parseField2 1 12 (padNum 2 d.month) = some d.month :=
    parseField2_padNum h3 h4 (by omega)
  have hdf : parseField2 1 31 (padNum 2 d.day) = some d.day :=
    parseField2_padNum h5 (le_trans h6 (daysInMonth_le _ _)) (by omega)
  have hcond : (decide (1 ≤ d.year) && decide (d.day ≤ daysInMonth d.year d.month)) = true := by
    rw [Bool.and_eq_true, decide_eq_true_eq, decide_eq_true_eq]
    exact ⟨h1, h6⟩
  simp only [hylen, hycn, hmf, hdf, if_pos, hcond, if_true]

theorem parseHMS_pad {h m s : Nat} (hh : h ≤ 23) (hm : m ≤ 59) (hs : s ≤ 59) :
    parseHMS (padNum 2 h ++ (':' :: (padNum 2 m ++ (':' :: padNum 2 s)))) = some (h, m, s) := by
  unfold parseHMS
  rw [splitOnChar_append _ (fun c hc => (padNum_not_special hc).2.1),
    splitOnChar_append _ (fun c hc => (padNum_not_special hc).2.1),
    splitOnChar_of_not_mem (fun c hc => (padNum_not_special hc).2.1)]
  simp only [parseField2_padNum (Nat.zero_le h) hh (by omega),
    parseField2_padNum (Nat.zero_le m) hm (by omega),
    parseField2_padNum (Nat.zero_le s) hs (by omega)]

theorem formatDate_mem {d : DateTime} {c : Char} (h : c ∈ formatDate d) :
    (∃ k, k < 10 ∧ c = digitChar k) ∨ c = '-' := by
  unfold formatDate at h
  simp only [List.mem_append, List.mem_cons] at h
  rcases h with h | h | h | h | h
  · exact Or.inl (padNum_mem h)
  · exact Or.inr h
  · exact Or.inl (padNum_mem h)
  · exact Or.inr h
  · exact Or.inl (padNum_mem h)

theorem formatDate_ne_space {d : DateTime} {c : Char} (h : c ∈ formatDate d) : c ≠ ' ' := by
  rcases formatDate_mem h with ⟨k, hk, rfl⟩ | rfl
  · exact (digitChar_ne k hk).2.2.2.1
  · decide

theorem parseDateTime_formatDateTime {d : DateTime} (h : d.Valid) :
    parseDateTime (formatDateTime d) = some d := by
  obtain ⟨h1, h2, h3, h4, h5, h6, h7, h8, h9⟩ := h
  unfold parseDateTime formatDateTime
  rw [splitOnChar_append _ (fun c hc => formatDate_ne_space hc),
    splitOnChar_of_not_mem ?hts]
  case hts =>
    intro c hc
    simp only [List.mem_append, List.mem_cons] at hc
    rcases hc with hc | hc | hc | hc | hc
    · exact (padNum_not_special hc).2.2.2.1
    · rw [hc]; decide
    · exact (padNum_not_special hc).2.2.2.1
    · rw [hc]; decide
    · exact (padNum_not_special hc).2.2.2.1
  simp only [parseDate_formatDate ⟨h1, h2, h3, h4, h5, h6, by omega, by omega, by omega⟩,
    parseHMS_pad h7 h8 h9]

/-! Lemmas: evaluation of the sign helpers and the integer round trip. -/

theorem natToChars_no_ws (n : Nat) : ∀ c ∈ natToChars n, isPyWs c = false := by
  intro c hc
  rcases natToChars_mem hc with ⟨d, hd, rfl⟩
  exact (digitChar_ne d hd).2.2.2.2.2

theorem pySign_digit {d : Nat} (hd : d < 10) (cs : Str) : pySign (digitChar d :: cs) = 1 := by
  unfold pySign
  split
  case _ tail heq =>
    injection heq with h1 _
    exact absurd h1 (digitChar_ne d hd).1
  case _ => rfl

theorem pyUnsigned_digit {d : Nat} (hd : d < 10) (cs : Str) :
    pyUnsigned (digitChar d :: cs) = digitChar d :: cs := by
  unfold pyUnsigned
  split
  case _ r heq =>
    injection heq with h1 _
    exact absurd h1 (digitChar_ne d hd).2.2.2.2.1
  case _ r heq =>
    injection heq with h1 _
    exact absurd h1 (digitChar_ne d hd).1
  case _ => rfl

theorem pySign_neg (r : Str) : pySign ('-' :: r) = -1 := rfl

theorem pyUnsigned_neg (r : Str) : pyUnsigned ('-' :: r) = r := rfl

theorem pyFloatChars_digits {s : Str} (hne : s ≠ [])
    (hdig : ∀ c ∈ s, ∃ d, d < 10 ∧ c = digitChar d) :
    pyFloatChars s = some ⟨(charsValAux 0 s : Nat), 0⟩ := by
  unfold pyFloatChars
  rw [pyStrip_of_no_ws (fun c hc => by
    rcases hdig c hc with ⟨d, hd, rfl⟩
    exact (digitChar_ne d hd).2.2.2.2.2)]
  obtain ⟨c, cs, rfl⟩ : ∃ c cs, s = c :: cs := by
    cases s with
    | nil => exact absurd rfl hne
    | cons c cs => exact ⟨c, cs, rfl⟩
  obtain ⟨d, hd, rfl⟩ := hdig c (List.mem_cons_self c cs)
  have hsplit : splitOnChar '.' (digitChar d :: cs) = [digitChar d :: cs] :=
    splitOnChar_of_not_mem (fun c hc => by
      rcases hdig c hc with ⟨k, hk, rfl⟩
      exact (digitChar_ne k hk).2.2.1)
  dsimp only
  rw [pySign_digit hd, pyUnsigned_digit hd, hsplit]
  have hdigall : (digitChar d :: cs).all Char.isDigit = true := by
    rw [List.all_eq_true]
    intro c hc
    rcases hdig c hc with ⟨k, hk, rfl⟩
    exact digitChar_isDigit k hk
  show (if (!(digitChar d :: cs).isEmpty && (digitChar d :: cs).all Char.isDigit) = true then
      some (⟨1 * (charsValAux 0 (digitChar d :: cs) : Nat), 0⟩ : Dec) else none) = _
  rw [if_pos (by simp [hdigall]), one_mul]

theorem pyFloatChars_neg_digits {s : Str} (hne : s ≠ [])
    (hdig : ∀ c ∈ s, ∃ d, d < 10 ∧ c = digitChar d) :
    pyFloatChars ('-' :: s) = some ⟨-(charsValAux 0 s : Nat), 0⟩ := by
  unfold pyFloatChars
  rw [pyStrip_of_no_ws (fun c hc => by
    rcases List.mem_cons.mp hc with rfl | hc
    · decide
    · rcases hdig c hc with ⟨d, hd, rfl⟩
      exact (digitChar_ne d hd).2.2.2.2.2)]
  have hsplit : splitOnChar '.' s = [s] :=
    splitOnChar_of_not_mem (fun c hc => by
      rcases hdig c hc with ⟨k, hk, rfl⟩
      exact (digitChar_ne k hk).2.2.1)
  dsimp only
  rw [pySign_neg, pyUnsigned_neg, hsplit]
  obtain ⟨c, cs, rfl⟩ : ∃ c cs, s = c :: cs := by
    cases s with
    | nil => exact absurd rfl hne
    | cons c cs => exact ⟨c, cs, rfl⟩
  have hdigall : (c :: cs).all Char.isDigit = true := by
    rw [List.all_eq_true]
    intro x hx
    rcases hdig x hx with ⟨k, hk, rfl⟩
    exact digitChar_isDigit k hk
  show (if (!(c :: cs).isEmpty && (c :: cs).all Char.isDigit) = true then
      some (⟨-1 * (charsValAux 0 (c :: cs) : Nat), 0⟩ : Dec) else none) = _
  rw [if_pos (by simp [hdigall]), neg_one_mul]

theorem pyIntFloat_intToChars (i : Int) : pyIntFloat (intToChars i) = some i := by
  unfold pyIntFloat intToChars
  by_cases hi : i < 0
  · rw [if_pos hi,
      pyFloatChars_neg_digits (natToChars_ne_nil _) (fun c hc => natToChars_mem hc)]
    rw [Option.map_some', charsValAux_natToChars]
    dsimp only
    rw [pow_zero, Int.tdiv_one]
    simp only [Option.some.injEq]
    omega
  · rw [if_neg hi,
      pyFloatChars_digits (natToChars_ne_nil _) (fun c hc => natToChars_mem hc)]
    rw [Option.map_some', charsValAux_natToChars]
    dsimp only
    rw [pow_zero, Int.tdiv_one]
    simp only [Option.some.injEq]
    omega

/-! Lemmas: a serialized row parses back (the refresh path reads what
create wrote). -/

theorem mem_of_head?_eq {l : Str} {c : Char} (h : l.head? = some c) : c ∈ l := by
  cases l with
  | nil => simp at h
  | cons x xs =>
    rw [List.head?_cons] at h
    injection h with h
    rw [← h]
    exact List.mem_cons_self x xs

theorem mem_of_getLast?_eq {l : Str} {c : Char} (h : l.getLast? = some c) : c ∈ l := by
  have hm : c ∈ l.getLast? := by rw [h]; rfl
  rcases List.mem_getLast?_eq_getLast hm with ⟨hne, heq⟩
  rw [heq]
  exact List.getLast_mem hne

theorem getLast?_cons_of_ne_nil {a : Char} {l : Str} (h : l ≠ []) :
    (a :: l).getLast? = l.getLast? := by
  cases l with
  | nil => exact absurd rfl h
  | cons x xs => rw [List.getLast?_cons_cons]

theorem pyStrip_of_ends {s : Str} (h1 : ∀ c, s.head? = some c → isPyWs c = false)
    (h2 : ∀ c, s.getLast? = some c → isPyWs c = false) : pyStrip s = s := by
  unfold pyStrip
  have hd : s.dropWhile isPyWs = s := by
    cases s with
    | nil => rfl
    | cons c cs => rw [List.dropWhile_cons, if_neg (by simp [h1 c rfl])]
  rw [hd]
  have hr : s.reverse.dropWhile isPyWs = s.reverse := by
    cases hrev : s.reverse with
    | nil => rfl
    | cons c cs =>
      have hlast : s.getLast? = some c := by
        rw [← List.head?_reverse, hrev, List.head?_cons]
      rw [List.dropWhile_cons, if_neg (by simp [h2 c hlast])]
  rw [hr, List.reverse_reverse]

theorem formatDate_no_ws {d : DateTime} {c : Char} (h : c ∈ formatDate d) :
    isPyWs c = false := by
  rcases formatDate_mem h with ⟨k, hk, rfl⟩ | rfl
  · exact (digitChar_ne k hk).2.2.2.2.2
  · decide

theorem pyStrip_formatDate (d : DateTime) : pyStrip (formatDate d) = formatDate d :=
  pyStrip_of_no_ws (fun _ hc => formatDate_no_ws hc)

theorem padNum_ne_nil (w n : Nat) : padNum w n ≠ [] := by
  unfold padNum
  intro h
  rcases List.append_eq_nil.mp h with ⟨_, h2⟩
  exact natToChars_ne_nil n h2

theorem pyStrip_formatDateTime (d : DateTime) :
    pyStrip (formatDateTime d) = formatDateTime d := by
  apply pyStrip_of_ends
  · intro c hc
    unfold formatDateTime at hc
    rw [List.head?_append_of_ne_nil _ ?hfd] at hc
    case hfd =>
      unfold formatDate
      intro hnil
      rcases List.append_eq_nil.mp hnil with ⟨hp, _⟩
      exact padNum_ne_nil 4 d.year hp
    unfold formatDate at hc
    rw [List.head?_append_of_ne_nil _ (padNum_ne_nil 4 d.year)] at hc
    exact formatDate_no_ws (List.mem_append_left _ (mem_of_head?_eq hc))
  · intro c hc
    unfold formatDateTime at hc
    rw [List.getLast?_append_of_ne_nil _ (by simp)] at hc
    rw [getLast?_cons_of_ne_nil (by simp)] at hc
    rw [List.getLast?_append_of_ne_nil _ (by simp)] at hc
    rw [getLast?_cons_of_ne_nil (by simp)] at hc
    rw [List.getLast?_append_of_ne_nil _ (by simp)] at hc
    rw [getLast?_cons_of_ne_nil (padNum_ne_nil 2 d.second)] at hc
    exact (padNum_not_special (mem_of_getLast?_eq hc)).2.2.2.2.2

theorem getD_valid {o : Option DateTime} {now : DateTime}
    (ho : ∀ ca, o = some ca → ca.Valid) (hnow : now.Valid) : (o.getD now).Valid := by
  cases o with
  | none => exact hnow
  | some ca => exact ho ca rfl

theorem fromRowCreatedAt_toRow (ph em st no : Str) {x : DateTime} (hx : x.Valid) :
    fromRowCreatedAt [ph, em, st, formatDateTime x, no] = some (some x) := by
  unfold fromRowCreatedAt
  show (match parseDateTime (pyStrip (formatDateTime x)) with
    | some v => some (some v)
    | none => none) = some (some x)
  rw [pyStrip_formatDateTime, parseDateTime_formatDateTime hx]

theorem fromRow_toRow {b : Booking} {now : DateTime} (hdate : b.date.Valid)
    (hca : ∀ ca, b.created_at = some ca → ca.Valid) (hnow : now.Valid) :
    Booking.fromRow (b.toRow now) = some (roundTripped b now) := by
  unfold roundTripped
  have h0 : parseDate (pyStrip (formatDate b.date)) =
      some ⟨b.date.year, b.date.month, b.date.day, 0, 0, 0⟩ := by
    rw [pyStrip_formatDate]
    exact parseDate_formatDate hdate
  have h2 : pyIntFloat (intToChars b.court) = some b.court := pyIntFloat_intToChars _
  have h7 : fromRowCreatedAt
      [b.phone, b.email, b.status, formatDateTime (b.created_at.getD now), b.notes] =
      some (some (b.created_at.getD now)) :=
    fromRowCreatedAt_toRow _ _ _ _ (getD_valid hca hnow)
  unfold Booking.toRow Booking.fromRow
  simp only [h0, h2, h7, List.get?]

/-! Lemmas: availability and duplicate bookkeeping. -/

theorem slotMatch_iff {b : Booking} {dt : Nat × Nat × Nat} {t : Str} {c : Int} :
    slotMatch b dt t c = true ↔
      (b.date.dateTriple = dt ∧ b.time_slot = t ∧ b.court = c ∧ isBooked b = true) := by
  unfold slotMatch isBooked
  simp only [Bool.and_eq_true, decide_eq_true_eq, and_assoc]

theorem slotMatch_key {b : Booking} {dt t c} (h : slotMatch b dt t c = true) :
    keyOf b = (dt, t, c) ∧ isBooked b = true := by
  rcases slotMatch_iff.mp h with ⟨h1, h2, h3, h4⟩
  exact ⟨by rw [keyOf, h1, h2, h3], h4⟩

theorem slotMatch_of_key {b : Booking} {dt t c} (hk : keyOf b = (dt, t, c))
    (hb : isBooked b = true) : slotMatch b dt t c = true := by
  apply slotMatch_iff.mpr
  unfold keyOf at hk
  injection hk with h1 h23
  injection h23 with h2 h3
  exact ⟨h1, h2, h3, hb⟩

theorem checkAvailability_iff {cache : List Booking} {d : DateTime} {t : Str} {c : Int} :
    checkAvailability cache d t c = true ↔ ¬ bookedKeyIn cache (d.dateTriple, t, c) := by
  unfold checkAvailability bookedKeyIn
  rw [List.all_eq_true]
  constructor
  · rintro h ⟨b, hb, hbk, hkey⟩
    have h2 := h b hb
    rw [slotMatch_of_key hkey hbk] at h2
    exact Bool.noConfusion h2
  · intro h b hb
    cases hsm : slotMatch b d.dateTriple t c with
    | false => rfl
    | true =>
      rcases slotMatch_key hsm with ⟨hk, hbk⟩
      exact absurd ⟨b, hb, hbk, hk⟩ h

theorem checkAvailability_false_iff {cache : List Booking} {d : DateTime} {t : Str} {c : Int} :
    checkAvailability cache d t c = false ↔ bookedKeyIn cache (d.dateTriple, t, c) := by
  rw [← Bool.not_eq_true, checkAvailability_iff, not_not]

theorem noDupBooked_cons {b : Booking} {rest : List Booking} :
    noDupBooked (b :: rest) = true ↔
      ((∀ b2 ∈ rest, isBooked b = true →
        slotMatch b2 b.date.dateTriple b.time_slot b.court = false) ∧
       noDupBooked rest = true) := by
  show (rest.all _ && noDupBooked rest) = true ↔ _
  rw [Bool.and_eq_true, List.all_eq_true]
  apply and_congr_left'
  apply forall_congr'
  intro b2
  apply imp_congr_right
  intro _
  rw [Bool.not_eq_true']
  show (isBooked b && slotMatch b2 b.date.dateTriple b.time_slot b.court) = false ↔ _
  constructor
  · intro h hb
    cases hsm : slotMatch b2 b.date.dateTriple b.time_slot b.court with
    | false => rfl
    | true => rw [hb, hsm] at h; exact Bool.noConfusion h
  · intro h
    cases hb : isBooked b with
    | false => rw [Bool.false_and]
    | true => rw [h hb, Bool.and_false]

theorem bookedKeyIn_mono {l : List Booking} {b : Booking} {k} (h : bookedKeyIn l k) :
    bookedKeyIn (b :: l) k := by
  rcases h with ⟨b2, hb2, h1, h2⟩
  exact ⟨b2, List.mem_cons_of_mem b hb2, h1, h2⟩

theorem bookedKeyIn_append_iff {l : List Booking} {b : Booking} {k} :
    bookedKeyIn (l ++ [b]) k ↔ bookedKeyIn l k ∨ (isBooked b = true ∧ keyOf b = k) := by
  unfold bookedKeyIn
  constructor
  · rintro ⟨b2, hb2, h1, h2⟩
    rcases List.mem_append.mp hb2 with hm | hm
    · exact Or.inl ⟨b2, hm, h1, h2⟩
    · rcases List.mem_singleton.mp hm with rfl
      exact Or.inr ⟨h1, h2⟩
  · rintro (⟨b2, hb2, h1, h2⟩ | ⟨h1, h2⟩)
    · exact ⟨b2, List.mem_append_left _ hb2, h1, h2⟩
    · exact ⟨b, List.mem_append_right _ (List.mem_singleton.mpr rfl), h1, h2⟩

theorem noDupBooked_append {l : List Booking} {b : Booking} (hl : noDupBooked l = true)
    (hb : isBooked b = true → ¬ bookedKeyIn l (keyOf b)) :
    noDupBooked (l ++ [b]) = true := by
  induction l with
  | nil => rfl
  | cons x xs ih =>
    rw [List.cons_append, noDupBooked_cons]
    rcases noDupBooked_cons.mp hl with ⟨hhead, htail⟩
    refine ⟨?_, ih htail (fun hbk hin => hb hbk (bookedKeyIn_mono hin))⟩
    intro b2 hb2 hbx
    rcases List.mem_append.mp hb2 with hm | hm
    · exact hhead b2 hm hbx
    · rcases List.mem_singleton.mp hm with rfl
      cases hsm : slotMatch b2 x.date.dateTriple x.time_slot x.court with
      | false => rfl
      | true =>
        rcases slotMatch_key hsm with ⟨hk, hbk⟩
        exact (hb hbk ⟨x, List.mem_cons_self x xs, hbx, by rw [hk]; rfl⟩).elim

theorem refreshCache_cons_good {r : Row} {X : List Row} (hg : guardRow r = true)
    {b : Booking} (hf : Booking.fromRow r = some b) :
    refreshCache (r :: X) = b :: refreshCache X := by
  unfold refreshCache
  rw [List.filterMap_cons, if_pos hg, hf]

theorem refreshCache_append_good {L : List Row} {r : Row} (hg : guardRow r = true)
    {b : Booking} (hf : Booking.fromRow r = some b) :
    refreshCache (L ++ [r]) = refreshCache L ++ [b] := by
  unfold refreshCache
  rw [List.filterMap_append]
  congr 1
  rw [List.filterMap_cons, if_pos hg, hf]
  rfl

theorem guardRow_of_good {r : Row} (h : goodRow r) : guardRow r = true := by
  obtain ⟨h9, hfc, _⟩ := h
  unfold guardRow
  rw [h9, hfc]
  rfl

theorem fromRow_set6 {r : Row} (h9 : r.length = 9) {b : Booking}
    (hf : Booking.fromRow r = some b) (v : Str) :
    Booking.fromRow (r.set 6 v) = some { b with status := pyStrip v } ∧
    (r.set 6 v).length = 9 ∧ firstCell (r.set 6 v) = firstCell r := by
  rcases r with _ | ⟨a0, r⟩; · simp at h9
  rcases r with _ | ⟨a1, r⟩; · simp at h9
  rcases r with _ | ⟨a2, r⟩; · simp at h9
  rcases r with _ | ⟨a3, r⟩; · simp at h9
  rcases r with _ | ⟨a4, r⟩; · simp at h9
  rcases r with _ | ⟨a5, r⟩; · simp at h9
  rcases r with _ | ⟨a6, r⟩; · simp at h9
  rcases r with _ | ⟨a7, r⟩; · simp at h9
  rcases r with _ | ⟨a8, r⟩; · simp at h9
  rcases r with _ | ⟨a9, r⟩
  · refine ⟨?_, rfl, rfl⟩
    show Booking.fromRow [a0, a1, a2, a3, a4, a5, v, a7, a8] = some { b with status := pyStrip v }
    unfold Booking.fromRow at hf ⊢
    dsimp only at hf ⊢
    have hca2 : fromRowCreatedAt [a4, a5, v, a7, a8] = fromRowCreatedAt [a4, a5, a6, a7, a8] := rfl
    rw [hca2]
    rcases hdp : parseDate (pyStrip a0) with _ | dv <;> rw [hdp] at hf
    · simp at hf
    rcases hip : pyIntFloat a2 with _ | cv <;> rw [hip] at hf
    · simp at hf
    rcases hcc : fromRowCreatedAt [a4, a5, a6, a7, a8] with _ | caOpt <;> rw [hcc] at hf
    · simp at hf
    simp only [Option.some.injEq] at hf
    rw [← hf]
    rfl
  · simp at h9

theorem updateRowsCell_cons_succ (r : Row) (rest : List Row) (i col : Nat) (v : Str) :
    updateRowsCell (r :: rest) (i + 1) col v = r :: updateRowsCell rest i col v := by
  unfold updateRowsCell
  rw [List.getD_cons_succ, List.set_cons_succ]

theorem updateRowsCell_cons_zero (r : Row) (rest : List Row) (col : Nat) (v : Str) :
    updateRowsCell (r :: rest) 0 col v = setCellPad r col v :: rest := by
  unfold updateRowsCell
  rw [List.getD_cons_zero, List.set_cons_zero]

/-- Flipping the status cell of one well-formed ledger row preserves row
goodness, can only remove booked keys from the parsed ledger, and preserves
freedom from duplicate booked keys. -/
theorem refresh_cancel_update : ∀ (L : List Row) (i : Nat), (∀ r ∈ L, goodRow r) →
    ((∀ r ∈ updateRowsCell L i 6 (str "⚪ Cancelled"), goodRow r) ∧
     (∀ k, bookedKeyIn (refreshCache (updateRowsCell L i 6 (str "⚪ Cancelled"))) k →
        bookedKeyIn (refreshCache L) k) ∧
     (noDupBooked (refreshCache L) = true →
        noDupBooked (refreshCache (updateRowsCell L i 6 (str "⚪ Cancelled"))) = true)) := by
  intro L
  induction L with
  | nil =>
    intro i hG
    rw [show updateRowsCell [] i 6 (str "⚪ Cancelled") = [] from rfl]
    exact ⟨hG, fun k h => h, fun h => h⟩
  | cons r rest ih =>
    intro i hG
    have hgr : goodRow r := hG r (List.mem_cons_self r rest)
    have hguard : guardRow r = true := guardRow_of_good hgr
    obtain ⟨h9, hfc, hsome⟩ := hgr
    obtain ⟨b, hb⟩ := Option.isSome_iff_exists.mp hsome
    cases i with
    | zero =>
      rw [updateRowsCell_cons_zero]
      have hset : setCellPad r 6 (str "⚪ Cancelled") = r.set 6 (str "⚪ Cancelled") := by
        unfold setCellPad
        rw [if_pos (by omega)]
      rw [hset]
      obtain ⟨hf2, h92, hfc2⟩ := fromRow_set6 h9 hb (str "⚪ Cancelled")
      have hgood2 : goodRow (r.set 6 (str "⚪ Cancelled")) :=
        ⟨h92, by rw [hfc2]; exact hfc, by rw [hf2]; rfl⟩
      have hguard2 : guardRow (r.set 6 (str "⚪ Cancelled")) = true := guardRow_of_good hgood2
      rw [refreshCache_cons_good hguard hb, refreshCache_cons_good hguard2 hf2]
      have hnb : isBooked { b with status := pyStrip (str "⚪ Cancelled") } = false := by
        show containsSub bookedWord (pyStrip (str "⚪ Cancelled")) = false
        decide
      refine ⟨?_, ?_, ?_⟩
      · intro r2 hr2
        rcases List.mem_cons.mp hr2 with rfl | hm
        · exact hgood2
        · exact hG r2 (List.mem_cons_of_mem r hm)
      · intro k hk
        rcases hk with ⟨b2, hb2, hbk, hkey⟩
        rcases List.mem_cons.mp hb2 with rfl | hm
        · rw [hnb] at hbk
          exact Bool.noConfusion hbk
        · exact bookedKeyIn_mono ⟨b2, hm, hbk, hkey⟩
      · intro hnd
        rcases noDupBooked_cons.mp hnd with ⟨_, ht⟩
        apply noDupBooked_cons.mpr
        refine ⟨?_, ht⟩
        intro b2 hb2 hbk
        rw [hnb] at hbk
        exact Bool.noConfusion hbk
    | succ i =>
      rw [updateRowsCell_cons_succ]
      rw [refreshCache_cons_good hguard hb, refreshCache_cons_good hguard hb]
      obtain ⟨ihG, ihK, ihD⟩ := ih i (fun r2 hm => hG r2 (List.mem_cons_of_mem r hm))
      refine ⟨?_, ?_, ?_⟩
      · intro r2 hr2
        rcases List.mem_cons.mp hr2 with rfl | hm
        · exact ⟨h9, hfc, hsome⟩
        · exact ihG r2 hm
      · intro k hk
        rcases hk with ⟨b2, hb2, hbk, hkey⟩
        rcases List.mem_cons.mp hb2 with rfl | hm
        · exact ⟨b2, List.mem_cons_self b2 _, hbk, hkey⟩
        · exact bookedKeyIn_mono (ihK k ⟨b2, hm, hbk, hkey⟩)
      · intro hnd
        rcases noDupBooked_cons.mp hnd with ⟨hh, ht⟩
        apply noDupBooked_cons.mpr
        refine ⟨?_, ihD ht⟩
        intro b2 hb2 hbk
        cases hsm : slotMatch b2 b.date.dateTriple b.time_slot b.court with
        | false => rfl
        | true =>
          rcases slotMatch_key hsm with ⟨hk2, hbk2⟩
          have hin : bookedKeyIn (refreshCache (updateRowsCell rest i 6 (str "⚪ Cancelled")))
              (b.date.dateTriple, b.time_slot, b.court) := ⟨b2, hb2, hbk2, hk2⟩
          rcases ihK _ hin with ⟨b3, hb3, hbk3, hk3⟩
          have hcontra := hh b3 hb3 hbk
          rw [slotMatch_of_key hk3 hbk3] at hcontra
          exact Bool.noConfusion hcontra

theorem formatDate_ne_nil (d : DateTime) : formatDate d ≠ [] := by
  unfold formatDate
  intro h
  rcases List.append_eq_nil.mp h with ⟨hp, _⟩
  exact padNum_ne_nil 4 d.year hp

theorem goodRow_toRow {b : Booking} {now : DateTime} (hdate : b.date.Valid)
    (hca : ∀ ca, b.created_at = some ca → ca.Valid) (hnow : now.Valid) :
    goodRow (b.toRow now) := by
  refine ⟨rfl, ?_, ?_⟩
  · show (formatDate b.date).isEmpty = false
    cases hfd : formatDate b.date with
    | nil => exact absurd hfd (formatDate_ne_nil b.date)
    | cons c cs => rfl
  · rw [fromRow_toRow hdate hca hnow]
    rfl

theorem caValid_forall {o : Option DateTime} (h : caValid o) :
    ∀ ca, o = some ca → ca.Valid := by
  intro ca hca
  rw [hca] at h
  exact h

theorem invState_applyOp {s : MState} {op : Op} (hs : InvState s) (hop : opOK op) :
    InvState (applyOp s op) := by
  obtain ⟨hG, hC, hR, hK⟩ := hs
  cases op with
  | create b fail now =>
    obtain ⟨hts, hdate, hnow, hca0, _⟩ := hop
    have hca := caValid_forall hca0
    show InvState (createBooking s b fail now).1
    unfold createBooking
    cases hav : checkAvailability s.cache b.date b.time_slot b.court with
    | false =>
      simp only [hav, Bool.not_false, if_true]
      exact ⟨hG, hC, hR, hK⟩
    | true =>
      simp only [hav, Bool.not_true, Bool.false_eq_true, if_false]
      cases fail with
      | some e => exact ⟨hG, hC, hR, hK⟩
      | none =>
        have hb' := fromRow_toRow hdate hca hnow
        have hkey : keyOf (roundTripped b now) = keyOf b := by
          show ((b.date.year, b.date.month, b.date.day), pyStrip b.time_slot, b.court) = _
          rw [hts]
          rfl
        have hbooked : isBooked (roundTripped b now) = isBooked b := by
          show containsSub bookedWord (pyStrip b.status) = containsSub bookedWord b.status
          exact containsSub_booked_pyStrip b.status
        have havn : ¬ bookedKeyIn s.cache (keyOf b) := by
          have := checkAvailability_iff.mp hav
          exact this
        refine ⟨?_, ?_, ?_, ?_⟩
        · intro r hr
          rcases List.mem_append.mp hr with hm | hm
          · exact hG r hm
          · rcases List.mem_singleton.mp hm with rfl
            exact goodRow_toRow hdate hca hnow
        · exact noDupBooked_append hC (fun _ => havn)
        · show noDupBooked (refreshCache (s.bookings ++ [b.toRow now])) = true
          rw [refreshCache_append_good (guardRow_of_good (goodRow_toRow hdate hca hnow)) hb']
          apply noDupBooked_append hR
          intro hbk
          rw [hkey]
          intro hin
          exact havn (hK _ hin)
        · intro k hk
          rw [refreshCache_append_good (guardRow_of_good (goodRow_toRow hdate hca hnow)) hb']
            at hk
          rcases bookedKeyIn_append_iff.mp hk with hin | ⟨hbk, hkk⟩
          · exact bookedKeyIn_append_iff.mpr (Or.inl (hK k hin))
          · apply bookedKeyIn_append_iff.mpr
            apply Or.inr
            rw [hbooked] at hbk
            rw [hkey] at hkk
            exact ⟨hbk, hkk⟩
  | cancel d t c n =>
    show InvState (cancelBooking s d t c n).1
    unfold cancelBooking
    dsimp only
    cases hfind : findCancelIdx d.dateTriple (pyStrip t) c (pyStrip (pyLower n))
        (refreshCache s.bookings) 0 with
    | none =>
      exact ⟨hG, hR, hR, fun k h => h⟩
    | some i =>
      obtain ⟨uG, uK, uD⟩ := refresh_cancel_update s.bookings i hG
      exact ⟨uG, hR, uD hR, fun k hk => uK k hk⟩

theorem invState_init : InvState initMState :=
  ⟨fun r h => absurd h (List.not_mem_nil r), rfl, rfl, fun _ h => h⟩

theorem invState_runOps : ∀ (ops : List Op) (s : MState), InvState s →
    (∀ op ∈ ops, opOK op) → InvState (runOps s ops) := by
  intro ops
  induction ops with
  | nil => intro s hs _; exact hs
  | cons op ops ih =>
    intro s hs hoks
    exact ih _ (invState_applyOp hs (hoks op (List.mem_cons_self op ops)))
      (fun o ho => hoks o (List.mem_cons_of_mem op ho))

/-! Claim C1. -/

/-- C1, counterexample: the uniqueness claim quantified over all
create/cancel sequences fails on the code.  Two creates whose time-slot
spellings differ only by a leading space occupy distinct cache keys, so the
second is accepted; the refresh forced by a later (unrelated) cancel
re-parses the ledger, where from_row strips both slots to the same string,
leaving the cache with two Booked reservations on the same
(date, time_slot, court) triple. -/
theorem c1_counterexample : noDupBooked (runOps initMState c1Ops).cache = false := by decide

/-- C1 (amended): for every sequence of create/cancel calls whose created
bookings carry whitespace-stripped time-slot strings (with
CPython-representable datetimes and in-range court ids), the cache never
holds two Booked reservations sharing a (date, time_slot, court) triple;
and create refuses outright, returning ALREADY RESERVED and appending
nothing, whenever a cached Booked reservation matches all three keys. -/
theorem c1_uniqueness :
    (∀ ops : List Op, (∀ op ∈ ops, opOK op) →
      noDupBooked (runOps initMState ops).cache = true) ∧
    (∀ (s : MState) (b : Booking) (fail : Option Str) (now : DateTime),
      checkAvailability s.cache b.date b.time_slot b.court = false →
      createBooking s b fail now = (s, (false, str "ALREADY RESERVED", none))) := by
  constructor
  · intro ops hok
    exact (invState_runOps ops initMState invState_init hok).2.1
  · intro s b fail now hav
    unfold createBooking
    rw [hav]
    rfl

/-- C1 witness: the amended theorem applied to a concrete canonical call
sequence, and to a concrete occupied-slot create that is refused. -/
theorem c1_uniqueness_witness :
    noDupBooked (runOps initMState c1OkOps).cache = true ∧
    createBooking sAlice { bAlice with customer_name := str "Bob" } none dNow =
      (sAlice, (false, str "ALREADY RESERVED", none)) :=
  ⟨c1_uniqueness.1 c1OkOps (by decide),
   c1_uniqueness.2 sAlice { bAlice with customer_name := str "Bob" } none dNow (by decide)⟩

/-! Claim C3. -/

/-- C3: create is atomic on failure.  An occupied slot yields ALREADY
RESERVED with no mutation; an available slot whose ledger append raises
yields the transport error with ledger and cache untouched; only a
successful append appends to both ledger and cache and reports the assigned
sheet row. -/
theorem c3_create_atomic :
    ∀ (s : MState) (b : Booking) (fail : Option Str) (now : DateTime),
      (checkAvailability s.cache b.date b.time_slot b.court = false →
        createBooking s b fail now = (s, (false, str "ALREADY RESERVED", none))) ∧
      (∀ e, checkAvailability s.cache b.date b.time_slot b.court = true → fail = some e →
        createBooking s b fail now = (s, (false, str "DB ERROR: " ++ e, none))) ∧
      (checkAvailability s.cache b.date b.time_slot b.court = true → fail = none →
        createBooking s b fail now =
          ({ s with bookings := s.bookings ++ [b.toRow now], cache := s.cache ++ [b] },
           (true, str "BOOKED", some (s.bookings.length + 2)))) := by
  intro s b fail now
  refine ⟨?_, ?_, ?_⟩
  · intro hav
    unfold createBooking
    rw [hav]
    rfl
  · intro e hav hf
    unfold createBooking
    rw [hav, hf]
    rfl
  · intro hav hf
    unfold createBooking
    rw [hav, hf]
    rfl

/-- C3 witness: the three branches at concrete inputs. -/
theorem c3_create_atomic_witness :
    createBooking sAlice { bAlice with customer_name := str "Bob" } none dNow =
      (sAlice, (false, str "ALREADY RESERVED", none)) ∧
    createBooking initMState bAlice (some (str "boom")) dNow =
      (initMState, (false, str "DB ERROR: " ++ str "boom", none)) ∧
    createBooking initMState bAlice none dNow =
      ({ initMState with
          bookings := initMState.bookings ++ [bAlice.toRow dNow],
          cache := initMState.cache ++ [bAlice] }, (true, str "BOOKED", some 2)) :=
  ⟨(c3_create_atomic sAlice { bAlice with customer_name := str "Bob" } none dNow).1 (by decide),
   (c3_create_atomic initMState bAlice (some (str "boom")) dNow).2.1 (str "boom") (by decide) rfl,
   (c3_create_atomic initMState bAlice none dNow).2.2 (by decide) rfl⟩

/-! Claim C4. -/

theorem findCancelIdx_none {dt : Nat × Nat × Nat} {t : Str} {c : Int} {n : Str} :
    ∀ {l : List Booking} (i : Nat), (∀ b ∈ l, cancelMatch b dt t c n = false) →
      findCancelIdx dt t c n l i = none := by
  intro l
  induction l with
  | nil => intro i _; rfl
  | cons b bs ih =>
    intro i h
    unfold findCancelIdx
    rw [h b (List.mem_cons_self b bs)]
    show findCancelIdx dt t c n bs (i + 1) = none
    exact ih (i + 1) (fun b2 hb2 => h b2 (List.mem_cons_of_mem b hb2))

theorem findCancelIdx_some {dt : Nat × Nat × Nat} {t : Str} {c : Int} {n : Str} :
    ∀ {l : List Booking} {i j : Nat}, findCancelIdx dt t c n l i = some j →
      ∃ b ∈ l, cancelMatch b dt t c n = true := by
  intro l
  induction l with
  | nil => intro i j h; exact Option.noConfusion h
  | cons b bs ih =>
    intro i j h
    unfold findCancelIdx at h
    cases hcm : cancelMatch b dt t c n with
    | true => exact ⟨b, List.mem_cons_self b bs, hcm⟩
    | false =>
      rw [hcm] at h
      simp only [Bool.false_eq_true, if_false] at h
      rcases ih h with ⟨b2, hb2, hcm2⟩
      exact ⟨b2, List.mem_cons_of_mem b hb2, hcm2⟩

/-- C4: a cancel that finds no cached Booked match on calendar day, stripped
time slot, court and case-insensitive trimmed name — including a right slot
with a wrong customer name — returns BOOKING NOT FOUND, leaves the ledger
untouched (no cell update), and alters no reservation status; only the
in-memory cache is replaced by the forced refresh. -/
theorem c4_cancel_notfound :
    ∀ (s : MState) (d : DateTime) (t : Str) (c : Int) (n : Str),
      (∀ b ∈ refreshCache s.bookings,
        cancelMatch b d.dateTriple (pyStrip t) c (pyStrip (pyLower n)) = false) →
      cancelBooking s d t c n =
        ({ s with cache := refreshCache s.bookings }, (false, str "BOOKING NOT FOUND")) := by
  intro s d t c n hnone
  unfold cancelBooking
  dsimp only
  rw [findCancelIdx_none 0 hnone]

/-- C4 witness: cancelling the right slot under the wrong name (Bob instead
of Alice) fails and the ledger row is untouched. -/
theorem c4_cancel_notfound_witness :
    cancelBooking sAlice ⟨2024, 6, 1, 0, 0, 0⟩ (str "10:00") 2 (str "Bob") =
      ({ sAlice with cache := refreshCache sAlice.bookings },
       (false, str "BOOKING NOT FOUND")) :=
  c4_cancel_notfound sAlice ⟨2024, 6, 1, 0, 0, 0⟩ (str "10:00") 2 (str "Bob") (by decide)

/-! Claim C8. -/

theorem cancelMatch_slotMatch {b : Booking} {dt t c n} (h : cancelMatch b dt t c n = true) :
    slotMatch b dt t c = true := by
  unfold cancelMatch at h
  unfold slotMatch
  simp only [Bool.and_eq_true] at h ⊢
  obtain ⟨⟨⟨⟨hA, hB⟩, hC⟩, _⟩, hE⟩ := h
  exact ⟨⟨⟨hA, hB⟩, hC⟩, hE⟩

/-- C8: a successful cancel flips only the persisted status cell; the
refreshed in-memory cache is left as refreshed (the matched entry keeps its
Booked status in memory), so an immediate availability check for the
cancelled (date, stripped time-slot, court) still reports the slot taken. -/
theorem c8_cancel_frame :
    ∀ (s : MState) (d : DateTime) (t : Str) (c : Int) (n : Str) (s2 : MState) (m : Str),
      cancelBooking s d t c n = (s2, (true, m)) →
      s2.cache = refreshCache s.bookings ∧
      checkAvailability s2.cache d (pyStrip t) c = false ∧
      ∃ i, s2.bookings = updateRowsCell s.bookings i 6 (str "⚪ Cancelled") := by
  intro s d t c n s2 m h
  unfold cancelBooking at h
  dsimp only at h
  cases hfind : findCancelIdx d.dateTriple (pyStrip t) c (pyStrip (pyLower n))
      (refreshCache s.bookings) 0 with
  | none =>
    rw [hfind] at h
    injection h with h1 h2
    injection h2 with h3 _
    exact Bool.noConfusion h3
  | some i =>
    rw [hfind] at h
    injection h with h1 h2
    rw [← h1]
    refine ⟨rfl, ?_, ⟨i, rfl⟩⟩
    rcases findCancelIdx_some hfind with ⟨b, hb, hcm⟩
    apply checkAvailability_false_iff.mpr
    rcases slotMatch_key (cancelMatch_slotMatch hcm) with ⟨hk, hbk⟩
    exact ⟨b, hb, hbk, hk⟩

/-- C8 witness: cancelling the Alice booking succeeds, the availability
check for its slot still reports unavailable on the post-cancel cache. -/
theorem c8_cancel_frame_witness :
    (cancelBooking sAlice ⟨2024, 6, 1, 0, 0, 0⟩ (str "10:00") 2 (str "Alice")).1.cache =
      refreshCache sAlice.bookings ∧
    checkAvailability
      (cancelBooking sAlice ⟨2024, 6, 1, 0, 0, 0⟩ (str "10:00") 2 (str "Alice")).1.cache
      ⟨2024, 6, 1, 0, 0, 0⟩ (pyStrip (str "10:00")) 2 = false ∧
    ∃ i, (cancelBooking sAlice ⟨2024, 6, 1, 0, 0, 0⟩ (str "10:00") 2 (str "Alice")).1.bookings =
      updateRowsCell sAlice.bookings i 6 (str "⚪ Cancelled") :=
  c8_cancel_frame sAlice ⟨2024, 6, 1, 0, 0, 0⟩ (str "10:00") 2 (str "Alice")
    (cancelBooking sAlice ⟨2024, 6, 1, 0, 0, 0⟩ (str "10:00") 2 (str "Alice")).1
    (str "RELEASED") (by decide)

/-! Claim C5. -/

/-- C5, counterexample: a row that is well formed in the claim's sense (nine
cells, parseable ISO date, integer-parseable court spelled 3.0) does not
survive the round trip: to_row renders the parsed court back as 3, not
3.0. -/
theorem c5_counterexample :
    c5Row.length = 9 ∧
    (parseDate (pyStrip (cellAt c5Row 0))).isSome = true ∧
    (pyIntFloat (cellAt c5Row 2)).isSome = true ∧
    (Booking.fromRow c5Row).map (Booking.toRow dNow) ≠ some c5Row := by decide

/-- C5 (amended): the round trip holds for every nine-cell row in canonical
serialized form: the date, court and created_at cells equal the canonical
rendering of their own parses, and the remaining text cells carry no
surrounding whitespace. -/
theorem c5_roundtrip :
    ∀ (now : DateTime) (r0 r1 r2 r3 r4 r5 r6 r7 r8 : Str)
      (dd : DateTime) (cv : Int) (cav : DateTime),
      parseDate (pyStrip r0) = some dd → r0 = formatDate dd →
      pyIntFloat r2 = some cv → r2 = intToChars cv →
      parseDateTime (pyStrip r7) = some cav → r7 = formatDateTime cav →
      pyStrip r1 = r1 → pyStrip r3 = r3 → pyStrip r4 = r4 → pyStrip r5 = r5 →
      pyStrip r6 = r6 → pyStrip r8 = r8 →
      (Booking.fromRow [r0, r1, r2, r3, r4, r5, r6, r7, r8]).map (Booking.toRow now) =
        some [r0, r1, r2, r3, r4, r5, r6, r7, r8] := by
  intro now r0 r1 r2 r3 r4 r5 r6 r7 r8 dd cv cav hd0 hd0c hc0 hc0c hca hcac h1 h3 h4 h5 h6 h8
  have hfca : fromRowCreatedAt [r4, r5, r6, r7, r8] = some (some cav) := by
    unfold fromRowCreatedAt
    show (match parseDateTime (pyStrip r7) with
      | some v => some (some v)
      | none => none) = some (some cav)
    rw [hca]
  unfold Booking.fromRow
  dsimp only
  rw [hd0, hc0, hfca]
  unfold Booking.toRow
  dsimp only
  simp only [Option.map_some', List.get?, Option.getD_some]
  rw [h1, h3, h4, h5, h6, h8, ← hd0c, ← hcac, ← hc0c]

/-- C5 witness: the amended round trip at a concrete canonical row. -/
theorem c5_roundtrip_witness :
    (Booking.fromRow c5CanonRow).map (Booking.toRow dNow) = some c5CanonRow :=
  c5_roundtrip dNow (str "2024-06-01") (str "10:00") (str "3") (str "Alice") (str "p")
    (str "e") (str "🔴 Booked") (str "2024-06-01 09:00:00") (str "n")
    ⟨2024, 6, 1, 0, 0, 0⟩ 3 ⟨2024, 6, 1, 9, 0, 0⟩
    (by decide) (by decide) (by decide) (by decide) (by decide) (by decide)
    (by decide) (by decide) (by decide) (by decide) (by decide) (by decide)

/-! Claim C6. -/

/-- C6, counterexample: rows that are empty or have an empty first cell fall
into neither partition, so retained + archived falls short of the original
row count — for the request queue and for the ledger alike. -/
theorem c6_counterexample :
    ¬ ((partitionRequestRows (2024, 6, 10) [[[]], [str "x", str "2024-06-05"]]).1.length +
       (partitionRequestRows (2024, 6, 10) [[[]], [str "x", str "2024-06-05"]]).2.length =
       ([[[]], [str "x", str "2024-06-05"]] : List Row).length) ∧
    ¬ ((partitionLedgerRows (2024, 6, 10) [[[]]]).1.length +
       (partitionLedgerRows (2024, 6, 10) [[[]]]).2.length =
       ([[[]]] : List Row).length) := by decide

theorem ite_pair_length (cond : Prop) [Decidable cond] (p : List Row × List Row) (row : Row) :
    (if cond then (row :: p.1, p.2) else (p.1, row :: p.2)).1.length +
      (if cond then (row :: p.1, p.2) else (p.1, row :: p.2)).2.length =
      p.1.length + p.2.length + 1 := by
  split <;> simp <;> omega

/-- C6 (amended): for every input row list and date cutoff, both archival
partitions conserve the rows that are not blank (nonempty row with a
nonempty first cell): retained + archived = count of non-blank rows. -/
theorem c6_conservation :
    ∀ (today : Nat × Nat × Nat) (rows : List Row),
      (partitionRequestRows today rows).1.length +
        (partitionRequestRows today rows).2.length =
        rows.countP (fun r => !rowBlank r) ∧
      (partitionLedgerRows today rows).1.length +
        (partitionLedgerRows today rows).2.length =
        rows.countP (fun r => !rowBlank r) := by
  intro today rows
  induction rows with
  | nil => exact ⟨rfl, rfl⟩
  | cons r rest ih =>
    obtain ⟨ih1, ih2⟩ := ih
    rw [List.countP_cons]
    constructor
    · unfold partitionRequestRows
      dsimp only
      cases hb : rowBlank r with
      | true =>
        simp
        omega
      | false =>
        simp
        rw [ite_pair_length]
        omega
    · unfold partitionLedgerRows
      dsimp only
      cases hb : rowBlank r with
      | true =>
        simp
        omega
      | false =>
        simp
        rw [ite_pair_length]
        omega

/-! Claim C7. -/

theorem parseTimeStr_decimal {raw : Str} {d : Dec} (h : containsSub (str ":") raw = false)
    (hd : pyFloatChars raw = some d) :
    parseTimeStr raw = fmt02 (Int.tdiv (24 * d.num) ((10 : Int) ^ d.exp)) ++ str ":00" := by
  unfold parseTimeStr
  rw [h, hd]
  rfl

/-- C7: request time parsing order.  A value containing a colon is taken
as-is; a colon-free value is first read as a fractional-day decimal and
rendered as the truncated hour with a :00 suffix (0.5 gives 12:00); only if
the decimal read fails is the raw text suffixed with :00. -/
theorem c7_time_parsing :
    ∀ raw : Str,
      (containsSub (str ":") raw = true → parseTimeStr raw = raw) ∧
      (containsSub (str ":") raw = false → ∀ d, pyFloatChars raw = some d →
        parseTimeStr raw = fmt02 (Int.tdiv (24 * d.num) ((10 : Int) ^ d.exp)) ++ str ":00") ∧
      (containsSub (str ":") raw = false → pyFloatChars raw = none →
        parseTimeStr raw = raw ++ str ":00") ∧
      parseTimeStr (str "0.5") = str "12:00" := by
  intro raw
  refine ⟨?_, ?_, ?_, by decide⟩
  · intro h
    unfold parseTimeStr
    rw [h]
    rfl
  · intro h d hd
    exact parseTimeStr_decimal h hd
  · intro h hd
    unfold parseTimeStr
    rw [h, hd]
    rfl

/-- C7 witness: the three branches at concrete inputs. -/
theorem c7_time_parsing_witness :
    parseTimeStr (str "10:30") = str "10:30" ∧
    parseTimeStr (str "0.5") = fmt02 (Int.tdiv (24 * 5) ((10 : Int) ^ 1)) ++ str ":00" ∧
    parseTimeStr (str "abc") = str "abc" ++ str ":00" :=
  ⟨(c7_time_parsing (str "10:30")).1 (by decide),
   (c7_time_parsing (str "0.5")).2.1 (by decide) ⟨5, 1⟩ (by decide),
   (c7_time_parsing (str "abc")).2.2.1 (by decide) (by decide)⟩

/-! Claim C9. -/

/-- C9: every colon-free time value that reads as a nonnegative decimal f is
mapped to the whole hour floor(f * 24) rendered with a :00 suffix
(truncation discards sub-hour precision; for nonnegative f the code's
truncation toward zero is the floor). -/
theorem c9_day_fraction_floor :
    ∀ (raw : Str) (d : Dec), containsSub (str ":") raw = false →
      pyFloatChars raw = some d → 0 ≤ d.num →
      parseTimeStr raw = fmt02 (Int.fdiv (24 * d.num) ((10 : Int) ^ d.exp)) ++ str ":00" := by
  intro raw d hc hd hpos
  rw [parseTimeStr_decimal hc hd]
  rw [Int.fdiv_eq_tdiv (by positivity) (by positivity)]

/-- C9 witness: 0.521 of a day (12:30) is truncated to the 12:00 slot. -/
theorem c9_day_fraction_floor_witness :
    parseTimeStr (str "0.521") =
      fmt02 (Int.fdiv (24 * 521) ((10 : Int) ^ 3)) ++ str ":00" ∧
    parseTimeStr (str "0.521") = str "12:00" :=
  ⟨c9_day_fraction_floor (str "0.521") ⟨521, 3⟩ (by decide) (by decide) (by decide),
   by decide⟩

/-! Claim C2. -/

/-- C2, counterexample: the skip check of process_requests is keyed on the
success sigil alone, not jointly with the action type.  A row whose action
has changed to cancel but whose marker still records an earlier book success
is skipped wholesale: the pass leaves the whole state untouched and counts
nothing — even though the very cancel it asks for would succeed if executed
(second conjunct), so the row was skipped, not rejected. -/
theorem c2_counterexample :
    processRequests envNone c2State = (c2State, 0) ∧
    (cancelBooking c2State ⟨2024, 6, 1, 0, 0, 0⟩ (str "10:00") 2 (str "Alice")).2 =
      (true, str "RELEASED") := by decide

/-- C2 (amended): the skip rule is keyed on the success marker alone: any
request row whose outcome marker contains the success sigil is skipped with
no mutation, no marker change and no count, regardless of its action field;
in particular replaying an already-done row produces nothing, and a row
marked done for book is NOT reprocessed when its action changes to
cancel. -/
theorem c2_skip_marker :
    ∀ (env : ProcEnv) (s : MState) (i : Nat) (row : Row),
      containsSub (str "✅") (if 9 ≤ row.length then cellAt row 8 else []) = true →
      processRow env s i row = (s, false) := by
  intro env s i row h
  unfold processRow
  dsimp only
  cases hb : rowBlank row with
  | true => simp
  | false => simp [h]

/-- C2 witness: the amended skip rule at the concrete cancel-after-book
row. -/
theorem c2_skip_marker_witness :
    processRow envNone c2State 0
      [str "🚫 CANCEL", str "2024-06-01", str "10:00", str "2", str "Alice",
       [], [], [], str "✅ BOOKED"] = (c2State, false) :=
  c2_skip_marker envNone c2State 0
    [str "🚫 CANCEL", str "2024-06-01", str "10:00", str "2", str "Alice",
     [], [], [], str "✅ BOOKED"] (by decide)

/-! Claim C10. -/

theorem processRow_blank (env : ProcEnv) (s : MState) (i : Nat) (row : Row)
    (h : rowBlank row = true) : processRow env s i row = (s, false) := by
  unfold processRow
  dsimp only
  simp [h]

theorem createBooking_requests (s : MState) (b : Booking) (fail : Option Str)
    (now : DateTime) : ((createBooking s b fail now).1).requests = s.requests := by
  unfold createBooking
  split
  · rfl
  · cases fail with
    | some e => rfl
    | none => rfl

theorem cancelBooking_requests (s : MState) (d : DateTime) (t : Str) (c : Int) (n : Str) :
    ((cancelBooking s d t c n).1).requests = s.requests := by
  unfold cancelBooking
  dsimp only
  cases hfind : findCancelIdx d.dateTriple (pyStrip t) c (pyStrip (pyLower n))
      (refreshCache s.bookings) 0 with
  | none => rfl
  | some i => rfl

theorem processRow_requests_frame (env : ProcEnv) (s : MState) (i : Nat) (row : Row)
    (j : Nat) (hne : j ≠ i) :
    ((processRow env s i row).1).requests.get? j = s.requests.get? j := by
  have hset : ∀ (s2 : MState) (v : Str), s2.requests.get? j = s.requests.get? j →
      ((writeMarker s2 i v).requests).get? j = s.requests.get? j := by
    intro s2 v h
    unfold writeMarker updateRowsCell
    dsimp only
    rw [List.get?_set_ne _ _ (fun hij => hne hij.symm)]
    exact h
  unfold processRow
  dsimp only
  repeat' split
  all_goals first
    | rfl
    | exact hset s _ rfl
    | exact hset _ _ (by rw [createBooking_requests])
    | exact hset _ _ (by rw [cancelBooking_requests])

theorem processAux_requests_frame (env : ProcEnv) :
    ∀ (rows : List Row) (i0 : Nat) (s : MState) (cnt j : Nat),
      (∀ k, k < rows.length → i0 + k = j → rowBlank (rows.getD k []) = true) →
      ((processAux env rows i0 s cnt).1).requests.get? j = s.requests.get? j := by
  intro rows
  induction rows with
  | nil => intro i0 s cnt j _; rfl
  | cons r rs ih =>
    intro i0 s cnt j h
    unfold processAux
    dsimp only
    by_cases hij : i0 = j
    · have hblank : rowBlank r = true := by
        have := h 0 (by simp) (by omega)
        simpa using this
      rw [processRow_blank env s i0 r hblank]
      exact ih (i0 + 1) s _ j (fun k hk hkeq => absurd hkeq (by omega))
    · have hstep := ih (i0 + 1) (processRow env s i0 r).1
        (cnt + if (processRow env s i0 r).2 then 1 else 0) j
        (fun k hk hkeq => by
          have := h (k + 1) (by simpa using Nat.succ_lt_succ hk) (by omega)
          simpa using this)
      rw [hstep]
      exact processRow_requests_frame env s i0 r j (fun hjeq => hij hjeq.symm)

/-- C10: a request row that is empty, or whose action cell is empty, is
skipped silently: the per-row step leaves the state untouched (no outcome
marker anywhere, no ledger or cache mutation) and contributes nothing to the
success count; and after a whole pass such a row is byte-for-byte unchanged
in the queue, hence still unmarked for every future pass. -/
theorem c10_blank_rows :
    (∀ (env : ProcEnv) (s : MState) (i : Nat) (row : Row), rowBlank row = true →
      processRow env s i row = (s, false)) ∧
    (∀ (env : ProcEnv) (s : MState) (j : Nat), rowBlank (s.requests.getD j []) = true →
      ((processRequests env s).1).requests.get? j = s.requests.get? j) := by
  constructor
  · exact processRow_blank
  · intro env s j h
    unfold processRequests
    by_cases he : s.requests.isEmpty = true
    · rw [if_pos he]
    · rw [if_neg he]
      exact processAux_requests_frame env s.requests 0 s 0 j
        (fun k hk hkeq => by
          have hkj : k = j := by omega
          rw [hkj]
          exact h)

/-- C10 witness: an empty row is a per-row no-op, and survives a whole pass
unchanged while the live row behind it is processed. -/
theorem c10_blank_rows_witness :
    processRow envNone c2State 0 [[]] = (c2State, false) ∧
    ((processRequests envNone c10State).1).requests.get? 0 = c10State.requests.get? 0 :=
  ⟨c10_blank_rows.1 envNone c2State 0 [[]] (by decide),
   c10_blank_rows.2 envNone c10State 0 (by decide)⟩

end CourtBooking
